import Mathlib

/-!
# A verification model of the peerconnect connection/session core

This file gives a shallow embedding, in Lean, of the connection-orchestration
core of the `peerconnect` library:

* the signaling codec (`encodeSignalingData` / `decodeSignalingData` in
  `src/utils/signalilng.ts`, i.e. `btoa(JSON.stringify(·))` and
  `JSON.parse(atob(·))`);
* the retry executor (`retryConnection` in `src/core/connection-manager.ts`);
* the `PeerConnectionManager` state machine: room lifecycle
  (`createRoom`, `joinRoom`, `leaveRoom`, `getCurrentRoom`), the peer
  registry, messaging (`sendMessage`), the handshake acceptors
  (`connectWithInfo`, `handleConnectionInfo`) and `isConnected`.

Modelling conventions:

* JavaScript strings are modelled as lists of UTF-16 code units (`List Nat`);
  `btoa`/`atob` are partial (`Option`), as in the DOM (`btoa` throws on code
  units ≥ 256, `atob` on strings that are not forgiving-base64).
* JSON values are modelled by the inductive `Json`.  JSON numbers are
  modelled as exact integers: `JSON.stringify` of the values the library
  serializes prints integers verbatim, and the model's parser accepts exactly
  the integer productions of the JSON number grammar (numbers with a fraction
  or exponent part are outside the integer-number model).
* The external WebRTC engine (`RTCPeerConnection` etc.) is out of scope of the
  repository; its effects are passed in as explicit outcome/oracle values
  (which attempt fails, which sdp/candidates are produced).
* Asynchrony is modelled by sequentialization: every `await` completes (or
  fails) atomically in program order, matching the single-owner execution
  model of the manager.  Event emissions are recorded in an append-only log.
* JavaScript truthiness tests from the source (`if (this.currentRoomId)`,
  `if (!targetPeerId)`, `if (!info.sdp || ...)`) are modelled exactly, so the
  empty string is falsy.
-/

namespace PeerConnect

/-! ## 1. Base64: `btoa` / `atob` (WHATWG forgiving-base64) -/

/-- The base64 alphabet: index 0–63 to character code. -/
def b64Char (i : Nat) : Nat :=
  if i < 26 then 65 + i           -- A–Z
  else if i < 52 then 97 + (i - 26)  -- a–z
  else if i < 62 then 48 + (i - 52)  -- 0–9
  else if i = 62 then 43          -- +
  else 47                         -- /

/-- Character code to base64 index (`none` for characters outside the alphabet,
including `=`). -/
def b64Index (c : Nat) : Option Nat :=
  if 65 ≤ c ∧ c ≤ 90 then some (c - 65)
  else if 97 ≤ c ∧ c ≤ 122 then some (c - 97 + 26)
  else if 48 ≤ c ∧ c ≤ 57 then some (c - 48 + 52)
  else if c = 43 then some 62
  else if c = 47 then some 63
  else none

/-- `btoa`, on the byte list of a Latin-1 string: 3 bytes to 4 characters,
with `=` padding. -/
def btoaChunks : List Nat → List Nat
  | [] => []
  | [x] => [b64Char (x / 4), b64Char (x % 4 * 16), 61, 61]
  | [x, y] => [b64Char (x / 4), b64Char (x % 4 * 16 + y / 16), b64Char (y % 16 * 4), 61]
  | x :: y :: z :: rest =>
    b64Char (x / 4) :: b64Char (x % 4 * 16 + y / 16) ::
      b64Char (y % 16 * 4 + z / 64) :: b64Char (z % 64) :: btoaChunks rest

/-- `window.btoa`: fails (throws `InvalidCharacterError`) when some code unit
of the argument is ≥ 256. -/
def btoa (s : List Nat) : Option (List Nat) :=
  if s.all (· < 256) then some (btoaChunks s) else none

/-- ASCII whitespace, stripped by forgiving-base64 decoding. -/
def isB64Ws (c : Nat) : Bool := c = 9 || c = 10 || c = 12 || c = 13 || c = 32

/-- Remove one trailing `=` (code 61) if present. -/
def dropOneEq : List Nat → List Nat
  | [] => []
  | [c] => if c = 61 then [] else [c]
  | c :: d :: rest => c :: dropOneEq (d :: rest)

/-- Remove up to two trailing `=` characters. -/
def stripPad (t : List Nat) : List Nat := dropOneEq (dropOneEq t)

/-- Translate every character to its base64 index; fail on a character outside
the alphabet. -/
def mapB64 : List Nat → Option (List Nat)
  | [] => some []
  | c :: cs =>
    match b64Index c, mapB64 cs with
    | some i, some is => some (i :: is)
    | _, _ => none

/-- Decode base64 index groups: 4 indices to 3 bytes; a final group of
2 (resp. 3) indices to 1 (resp. 2) bytes, leftover bits discarded;
a final group of 1 index is invalid. -/
def b64DecodeChunks : List Nat → Option (List Nat)
  | [] => some []
  | [_] => none
  | [a, b] => some [a * 4 + b / 16]
  | [a, b, c] => some [a * 4 + b / 16, b % 16 * 16 + c / 4]
  | a :: b :: c :: d :: rest =>
    match b64DecodeChunks rest with
    | some bytes => some ((a * 4 + b / 16) :: (b % 16 * 16 + c / 4) :: (c % 4 * 64 + d) :: bytes)
    | none => none

/-- `window.atob` (forgiving-base64): strip ASCII whitespace, strip the `=`
padding when the length is a multiple of 4, then decode; fails on a remainder
of 1, on stray `=`, and on characters outside the alphabet. -/
def atob (s : List Nat) : Option (List Nat) :=
  let t := s.filter (fun c => !(isB64Ws c))
  let u := if t.length % 4 = 0 then stripPad t else t
  match mapB64 u with
  | some idx => b64DecodeChunks idx
  | none => none

/-! ## 2. JSON: `JSON.stringify` / `JSON.parse`

JSON values as produced and consumed by the JavaScript source.  Strings (and
object keys) are lists of UTF-16 code units; numbers are exact integers (see
the header).  Object members are kept in document order; duplicate keys are
representable at the tree level, and the JavaScript last-occurrence-wins
property lookup is modelled separately by `jsGetFields`. -/

inductive Json where
  | null
  | bool (b : Bool)
  | num (n : Int)
  | str (s : List Nat)
  | arr (elems : List Json)
  | obj (fields : List (List Nat × Json))

/-- Lowercase hex digit character for a nibble. -/
def hexDigit (n : Nat) : Nat := if n < 10 then 48 + n else 87 + n

/-- `JSON.stringify` escaping of one string character: `"` and `\` get a
backslash, the named control escapes are used for 8, 9, 10, 12, 13, the other
control characters become `\u00XX`, and everything else is emitted verbatim. -/
def escapeChar (c : Nat) : List Nat :=
  if c = 34 then [92, 34]
  else if c = 92 then [92, 92]
  else if c = 8 then [92, 98]
  else if c = 9 then [92, 116]
  else if c = 10 then [92, 110]
  else if c = 12 then [92, 102]
  else if c = 13 then [92, 114]
  else if c < 32 then [92, 117, 48, 48, hexDigit (c / 16), hexDigit (c % 16)]
  else [c]

def escapeStr : List Nat → List Nat
  | [] => []
  | c :: cs => escapeChar c ++ escapeStr cs

/-- A string literal: quote, escaped body, quote. -/
def quoteStr (s : List Nat) : List Nat := 34 :: escapeStr s ++ [34]

/-- Decimal digits of a natural number, most significant first. -/
def natDigits (n : Nat) : List Nat :=
  if h : n < 10 then [48 + n]
  else natDigits (n / 10) ++ [48 + n % 10]
decreasing_by exact Nat.div_lt_self (by omega) (by omega)

/-- Decimal notation of an integer, as printed by `JSON.stringify`. -/
def intToChars (n : Int) : List Nat :=
  if n < 0 then 45 :: natDigits (-n).toNat else natDigits n.toNat

mutual

/-- `JSON.stringify` (no spacing argument): compact, no whitespace. -/
def stringify : Json → List Nat
  | .null => [110, 117, 108, 108]
  | .bool true => [116, 114, 117, 101]
  | .bool false => [102, 97, 108, 115, 101]
  | .num n => intToChars n
  | .str s => quoteStr s
  | .arr xs => 91 :: stringifyElems xs ++ [93]
  | .obj fs => 123 :: stringifyFields fs ++ [125]

def stringifyElems : List Json → List Nat
  | [] => []
  | [x] => stringify x
  | x :: y :: rest => stringify x ++ 44 :: stringifyElems (y :: rest)

def stringifyFields : List (List Nat × Json) → List Nat
  | [] => []
  | [(k, v)] => quoteStr k ++ 58 :: stringify v
  | (k, v) :: f :: rest => quoteStr k ++ 58 :: stringify v ++ 44 :: stringifyFields (f :: rest)

end

/-! ### `JSON.parse`

A recursive-descent parser for the JSON grammar (ECMA-404), restricted to
integer numbers (see the header).  `parseVal` runs on a fuel counter; fuel
`length + 1` always suffices (proved below for serialized output). -/

/-- JSON insignificant whitespace. -/
def isJsonWs (c : Nat) : Bool := c = 32 || c = 9 || c = 10 || c = 13

def skipWs : List Nat → List Nat
  | [] => []
  | c :: cs => if isJsonWs c then skipWs cs else c :: cs

def isDigitC (c : Nat) : Bool := 48 ≤ c && c ≤ 57

/-- Hex digit value (both cases accepted, as in `\uXXXX` escapes). -/
def parseHex (c : Nat) : Option Nat :=
  if 48 ≤ c ∧ c ≤ 57 then some (c - 48)
  else if 97 ≤ c ∧ c ≤ 102 then some (c - 87)
  else if 65 ≤ c ∧ c ≤ 70 then some (c - 55)
  else none

/-- Parse a string body after the opening quote: returns the code units and
the input after the closing quote.  Exactly the JSON escapes are accepted;
a raw control character (< 0x20) is a syntax error.  Runs on a fuel counter
(every step consumes at least one character, so `length + 1` fuel always
suffices; see the wrapper below). -/
def parseStringBodyF : Nat → List Nat → Option (List Nat × List Nat)
  | 0, _ => none
  | _ + 1, [] => none
  | fuel + 1, c :: cs =>
    if c = 34 then some ([], cs)
    else if c = 92 then
      match cs with
      | [] => none
      | e :: cs2 =>
        if e = 34 ∨ e = 92 ∨ e = 47 then
          match parseStringBodyF fuel cs2 with
          | some (body, rest) => some (e :: body, rest)
          | none => none
        else if e = 98 ∨ e = 116 ∨ e = 110 ∨ e = 102 ∨ e = 114 then
          let u : Nat :=
            if e = 98 then 8 else if e = 116 then 9
            else if e = 110 then 10 else if e = 102 then 12 else 13
          match parseStringBodyF fuel cs2 with
          | some (body, rest) => some (u :: body, rest)
          | none => none
        else if e = 117 then
          match cs2 with
          | h1 :: h2 :: h3 :: h4 :: cs3 =>
            match parseHex h1, parseHex h2, parseHex h3, parseHex h4 with
            | some a, some b, some c3, some d =>
              match parseStringBodyF fuel cs3 with
              | some (body, rest) => some ((((a * 16 + b) * 16 + c3) * 16 + d) :: body, rest)
              | none => none
            | _, _, _, _ => none
          | _ => none
        else none
    else if c < 32 then none
    else
      match parseStringBodyF fuel cs with
      | some (body, rest) => some (c :: body, rest)
      | none => none

def parseStringBody (s : List Nat) : Option (List Nat × List Nat) :=
  parseStringBodyF (s.length + 1) s

def takeDigits : List Nat → List Nat × List Nat
  | [] => ([], [])
  | c :: cs =>
    if isDigitC c then
      let p := takeDigits cs
      (c :: p.1, p.2)
    else ([], c :: cs)

def digitsVal (acc : Nat) : List Nat → Nat
  | [] => acc
  | c :: cs => digitsVal (acc * 10 + (c - 48)) cs

/-- After the integer digits, a `.`, `e` or `E` starts a fraction or exponent
part (outside the integer-number model). -/
def numBreak : List Nat → Bool
  | [] => false
  | h :: _ => h = 46 || h = 101 || h = 69

/-- Parse the unsigned part of a JSON number (`neg` records the sign). -/
def parseNumAux (neg : Bool) : List Nat → Option (Int × List Nat)
  | [] => none
  | c :: rest =>
    if isDigitC c then
      let q := takeDigits rest
      if c = 48 ∧ q.1 ≠ [] then none  -- leading zero
      else if numBreak q.2 then none  -- fraction/exponent: outside the integer model
      else
        let v : Nat := digitsVal (c - 48) q.1
        some (if neg then -(v : Int) else (v : Int), q.2)
    else none

/-- Parse a JSON number.  The full grammar is `-? int frac? exp?`; integer
values are represented exactly (see the header). -/
def parseNumber : List Nat → Option (Int × List Nat)
  | [] => none
  | c :: t => if c = 45 then parseNumAux true t else parseNumAux false (c :: t)

mutual

def parseVal : Nat → List Nat → Option (Json × List Nat)
  | 0, _ => none
  | fuel + 1, s =>
    match skipWs s with
    | [] => none
    | c :: cs =>
      if c = 110 then  -- 'n'
        match cs with
        | 117 :: 108 :: 108 :: r => some (.null, r)
        | _ => none
      else if c = 116 then  -- 't'
        match cs with
        | 114 :: 117 :: 101 :: r => some (.bool true, r)
        | _ => none
      else if c = 102 then  -- 'f'
        match cs with
        | 97 :: 108 :: 115 :: 101 :: r => some (.bool false, r)
        | _ => none
      else if c = 34 then  -- '"'
        match parseStringBody cs with
        | some (body, r) => some (.str body, r)
        | none => none
      else if c = 91 then  -- '['
        match skipWs cs with
        | [] => none
        | d :: r =>
          if d = 93 then some (.arr [], r)
          else
            match parseElems fuel (d :: r) with
            | some (xs, r2) => some (.arr xs, r2)
            | none => none
      else if c = 123 then  -- '{'
        match skipWs cs with
        | [] => none
        | d :: r =>
          if d = 125 then some (.obj [], r)
          else
            match parseMembers fuel (d :: r) with
            | some (fs, r2) => some (.obj fs, r2)
            | none => none
      else if c = 45 ∨ isDigitC c then
        match parseNumber (c :: cs) with
        | some (n, r) => some (.num n, r)
        | none => none
      else none

def parseElems : Nat → List Nat → Option (List Json × List Nat)
  | 0, _ => none
  | fuel + 1, s =>
    match parseVal fuel s with
    | none => none
    | some (v, r) =>
      match skipWs r with
      | [] => none
      | d :: r2 =>
        if d = 44 then
          match parseElems fuel r2 with
          | some (vs, r3) => some (v :: vs, r3)
          | none => none
        else if d = 93 then some ([v], r2)
        else none

def parseMembers : Nat → List Nat → Option (List (List Nat × Json) × List Nat)
  | 0, _ => none
  | fuel + 1, s =>
    match skipWs s with
    | [] => none
    | c :: cs =>
      if c = 34 then
        match parseStringBody cs with
        | none => none
        | some (k, r1) =>
          match skipWs r1 with
          | [] => none
          | d :: r2 =>
            if d = 58 then
              match parseVal fuel r2 with
              | none => none
              | some (v, r3) =>
                match skipWs r3 with
                | [] => none
                | d2 :: r4 =>
                  if d2 = 44 then
                    match parseMembers fuel r4 with
                    | some (ms, r5) => some ((k, v) :: ms, r5)
                    | none => none
                  else if d2 = 125 then some ([(k, v)], r4)
                  else none
            else none
      else none

end

/-- `JSON.parse`: parse a complete document; only whitespace may follow the
top-level value. -/
def jsonParse (s : List Nat) : Option Json :=
  match parseVal (s.length + 1) s with
  | some (v, r) => if skipWs r = [] then some v else none
  | none => none

/-- Input whose head cannot extend a digit run. -/
def headNotDigit : List Nat → Bool
  | [] => true
  | h :: _ => !(isDigitC h)

/-- What may legally follow a serialized value inside serialized output. -/
def afterVal : List Nat → Bool
  | [] => true
  | h :: _ => h = 44 || h = 93 || h = 125

/-! ## 3. The signaling codec (`src/utils/signalilng.ts`)

`encodeSignalingData(data) = btoa(JSON.stringify(data))` and
`decodeSignalingData(encodedData) = JSON.parse(atob(encodedData))`. -/

def encodeSignalingData (data : Json) : Option (List Nat) :=
  btoa (stringify data)

def decodeSignalingData (encodedData : List Nat) : Option Json :=
  match atob encodedData with
  | some txt => jsonParse txt
  | none => none

mutual

/-- All string code units (values and keys) of a JSON value are Latin-1
(< 256), so that `btoa` accepts its serialization. -/
def latin1 : Json → Bool
  | .null => true
  | .bool _ => true
  | .num _ => true
  | .str s => s.all (· < 256)
  | .arr xs => latin1L xs
  | .obj fs => latin1F fs

def latin1L : List Json → Bool
  | [] => true
  | x :: xs => latin1 x && latin1L xs

def latin1F : List (List Nat × Json) → Bool
  | [] => true
  | (k, v) :: fs => k.all (· < 256) && latin1 v && latin1F fs

end

/-! Field access on parsed JSON, with the JavaScript last-occurrence-wins
semantics of duplicate object keys. -/

def jsGetFields : List (List Nat × Json) → List Nat → Option Json
  | [], _ => none
  | (k, v) :: rest, key =>
    match jsGetFields rest key with
    | some w => some w
    | none => if k = key then some v else none

/-- The code units of `"type"`, `"sdp"`, `"roomId"`, `"candidates"`. -/
def keyType : List Nat := [116, 121, 112, 101]

def keySdp : List Nat := [115, 100, 112]

def keyRoomId : List Nat := [114, 111, 111, 109, 73, 100]

def keyCandidates : List Nat := [99, 97, 110, 100, 105, 100, 97, 116, 101, 115]

/-- A valid handshake payload (§6 of the spec): a JSON object carrying
`type`, `sdp`, `roomId` and a `candidates` array, all of whose strings are
Latin-1 (so that the `btoa` encoding step is defined at all). -/
def ValidHandshakePayload (p : Json) : Prop :=
  latin1 p = true ∧
  ∃ fs, p = Json.obj fs ∧
    (jsGetFields fs keyType).isSome ∧ (jsGetFields fs keySdp).isSome ∧
    (jsGetFields fs keyRoomId).isSome ∧
    ∃ cs, jsGetFields fs keyCandidates = some (Json.arr cs)

/-! ## 4. The retry executor (`retryConnection`, connection-manager.ts 724–743)

```ts
private async retryConnection(fn, maxRetries = 3) {
  for (let i = 0; i < maxRetries; i++) {
    try { await fn(); return; }
    catch (error) {
      if (i === maxRetries - 1) throw error;
      ...
      await new Promise((resolve) => setTimeout(resolve, Math.pow(2, i) * 1000));
    }
  }
}
```

The wrapped operation is a state transformer (the closure mutates `this`);
`fn i s` is the result of the invocation with attempt index `i` (the index
only selects the per-attempt behaviour of the external transport — the
closure itself does not depend on `i`).  The trace records the result, the
final state, the number of invocations, and the delays (in milliseconds)
awaited between attempts. -/

structure RetryTrace (σ ε : Type) where
  result : Except ε Unit
  state : σ
  attempts : Nat
  delays : List Nat

def retryAux {σ ε : Type} (fn : Nat → σ → Except ε Unit × σ) :
    Nat → Nat → σ → RetryTrace σ ε
  | _, 0, s => ⟨Except.ok (), s, 0, []⟩
  | i, rem + 1, s =>
    match fn i s with
    | (Except.ok _, s1) => ⟨Except.ok (), s1, 1, []⟩
    | (Except.error e, s1) =>
      if rem = 0 then ⟨Except.error e, s1, 1, []⟩
      else
        let t := retryAux fn (i + 1) rem s1
        ⟨t.result, t.state, t.attempts + 1, 1000 * 2 ^ i :: t.delays⟩

def retryConnection {σ ε : Type} (fn : Nat → σ → Except ε Unit × σ) (s : σ)
    (maxRetries : Nat := 3) : RetryTrace σ ε :=
  retryAux fn 0 maxRetries s

/-- Lift a pure (state-free) fallible operation. -/
def liftPure {ε : Type} (fn : Nat → Except ε Unit) : Nat → Unit → Except ε Unit × Unit :=
  fun i _ => (fn i, ())

/-! ## 5. The `PeerConnectionManager` state machine

State model of `src/core/connection-manager.ts`.  The external WebRTC
objects are modelled by their observable attributes; `close()` calls on
channels and connections are recorded in dedicated ledgers (`closedChannels`,
`closedConnections`) since the entries that own them are deleted from the
registry on teardown.  `emit` appends to an event log. -/

/-- An `RTCSessionDescriptionInit` (`{type, sdp}`). -/
structure SessionDesc where
  type : String
  sdp : String
deriving DecidableEq

/-- An ICE candidate, opaque to the manager (stored, emitted, relayed). -/
abbrev Candidate : Type := String

/-- Observable state of an `RTCPeerConnection`. -/
structure RTCConn where
  connectionState : String := "new"
  iceConnectionState : String := "new"
  localDescription : Option SessionDesc := none
  remoteDescription : Option SessionDesc := none
deriving DecidableEq

/-- Observable state of an `RTCDataChannel`. -/
structure DataChannel where
  readyState : String := "connecting"
deriving DecidableEq

/-- A `PeerMessage` (`{type, payload}`, opaque to the core). -/
structure PeerMessage where
  type : String
  payload : String
deriving DecidableEq

/-- A registry entry (interface `PeerConnection` in `core/types.ts`):
`{connection, dataChannel?, state, iceConnectionState}`. -/
structure PeerConnection where
  connection : RTCConn
  dataChannel : Option DataChannel
  state : String
  iceConnectionState : String
deriving DecidableEq

/-- Events emitted by the manager (interface `PeerEvents`). -/
inductive Event where
  | message (m : PeerMessage) (peerId : String)
  | peerJoin (peerId : String)
  | peerLeave (peerId : String)
  | roomJoined (roomId : String)
  | roomLeft (roomId : String)
  | disconnected
  | errorEvt (msg : String)
  | iceCandidate (c : Candidate) (peerId : String)
  | connectionInfo (d : SessionDesc)
  | connectionStateChange (peerId : String) (state : String)
deriving DecidableEq

/-- The manager's private fields, plus the observation ledgers. -/
structure ManagerState where
  connections : List (String × PeerConnection) := []
  currentRoomId : Option String := none
  isHost : Bool := false
  localConnection : Option RTCConn := none
  iceCandidates : List (String × List Candidate) := []
  events : List Event := []
  closedChannels : List String := []
  closedConnections : List String := []
deriving DecidableEq

def initState : ManagerState := {}

/-- `Map.get` on an insertion-ordered association list. -/
def mapGet {α : Type} : List (String × α) → String → Option α
  | [], _ => none
  | (k, v) :: rest, key => if k = key then some v else mapGet rest key

/-- `Map.set`: update in place if the key exists, else append. -/
def mapSet {α : Type} : List (String × α) → String → α → List (String × α)
  | [], key, v => [(key, v)]
  | (k, w) :: rest, key, v =>
    if k = key then (key, v) :: rest else (k, w) :: mapSet rest key v

/-- `Map.delete`. -/
def mapDelete {α : Type} : List (String × α) → String → List (String × α)
  | [], _ => []
  | (k, w) :: rest, key => if k = key then rest else (k, w) :: mapDelete rest key

def emit (s : ManagerState) (e : Event) : ManagerState :=
  { s with events := s.events ++ [e] }

/-- The JavaScript truthiness of `this.currentRoomId` (`null` and `""` are
falsy). -/
def truthyRoom : Option String → Bool
  | none => false
  | some r => r ≠ ""

/-- The JavaScript truthiness of the optional `targetPeerId` argument. -/
def truthyTarget : Option String → Bool
  | none => false
  | some p => p ≠ ""

/-- The error taxonomy: each constructor corresponds to a `throw` site in the
source (the spec's §7 names them `NotInRoom` etc.); `atobFailed` and
`jsonParseFailed` are the exceptions `atob`/`JSON.parse` raise inside
`connectWithInfo`, and `transportFailure msg` wraps a failure of the external
transport engine. -/
inductive ConnError where
  | noActiveRoom
  | noConnectionInfo
  | invalidConnectionInfo
  | atobFailed
  | jsonParseFailed
  | notInRoom
  | unknownPeer (peerId : String)
  | channelNotEstablished (peerId : String)
  | channelNotOpen (peerId : String)
  | sendFailed (peerId : String)
  | transportFailure (msg : String)
deriving DecidableEq

/-- `getCurrentRoom()` (lines 439–441). -/
def getCurrentRoom (s : ManagerState) : Option String := s.currentRoomId

/-- `getPeerIds()` (lines 692–694). -/
def getPeerIds (s : ManagerState) : List String := s.connections.map Prod.fst

/-- `disconnectFromPeer(peerId)` (lines 443–451): close the channel (if any)
and the connection, delete the entry, emit `peerLeave`. -/
def disconnectFromPeer (s : ManagerState) (peerId : String) : ManagerState :=
  match mapGet s.connections peerId with
  | none => s
  | some peer =>
    let s1 := { s with
      closedChannels :=
        if peer.dataChannel.isSome then s.closedChannels ++ [peerId] else s.closedChannels,
      closedConnections := s.closedConnections ++ [peerId],
      connections := mapDelete s.connections peerId }
    emit s1 (Event.peerLeave peerId)

/-- `leaveRoom()` (lines 425–437): if a (truthy) room is set, disconnect from
every peer, clear the room id, emit `roomLeft`. -/
def leaveRoom (s : ManagerState) : ManagerState :=
  if truthyRoom s.currentRoomId then
    let roomId := s.currentRoomId.getD ""
    let s1 := (s.connections.map Prod.fst).foldl disconnectFromPeer s
    emit { s1 with currentRoomId := none } (Event.roomLeft roomId)
  else s

/-- `joinRoom(roomId)` (lines 273–284): implicit teardown, then record the
Guest role and room id and emit `roomJoined`.  Never fails. -/
def joinRoom (roomId : String) (s : ManagerState) : ManagerState :=
  emit { leaveRoom s with currentRoomId := some roomId, isHost := false }
    (Event.roomJoined roomId)

/-- Behaviour of the external transport during one `createRoom` attempt:
either the `RTCPeerConnection`/`createDataChannel` constructors throw
(`failEarly`, before the `host` entry is registered), or
`createOffer`/`setLocalDescription`/the ICE wait fails (`failLate`, after
registration), or everything succeeds, producing an offer sdp and the
gathered candidates. -/
inductive CreateOutcome where
  | failEarly (msg : String)
  | failLate (msg : String)
  | ok (sdp : String) (cands : List Candidate)

/-- `onicecandidate` (lines 242–250): append to the candidate buffer for
`peerId`, emit `iceCandidate`. -/
def pushCandidate (peerId : String) (s : ManagerState) (c : Candidate) : ManagerState :=
  let cur := (mapGet s.iceCandidates peerId).getD []
  emit { s with iceCandidates := mapSet s.iceCandidates peerId (cur ++ [c]) }
    (Event.iceCandidate c peerId)

/-- One attempt of `createRoom(roomId)` (lines 188–270, the closure passed to
`retryConnection`): implicit teardown, set `currentRoomId` and `isHost`,
create the connection and data channel, register the `host` entry, create and
set the offer, gather candidates (blocking until complete), emit
`roomJoined`.  On a transport failure the error propagates with the partial
state: `currentRoomId` is already set, and on a late failure the `host` entry
is already registered. -/
def createRoomAttempt (roomId : String) (outcome : CreateOutcome) (s : ManagerState) :
    Except ConnError Unit × ManagerState :=
  let s0 := leaveRoom s
  let s1 := { s0 with currentRoomId := some roomId, isHost := true }
  match outcome with
  | .failEarly msg => (Except.error (ConnError.transportFailure msg), s1)
  | .failLate msg =>
    let entry : PeerConnection :=
      { connection := {}, dataChannel := some {}, state := "connecting",
        iceConnectionState := "new" }
    (Except.error (ConnError.transportFailure msg),
      { s1 with connections := mapSet s1.connections "host" entry })
  | .ok sdp cands =>
    let entry : PeerConnection :=
      { connection := { localDescription := some ⟨"offer", sdp⟩ },
        dataChannel := some {}, state := "connecting", iceConnectionState := "new" }
    let s2 := { s1 with connections := mapSet s1.connections "host" entry }
    let s3 := cands.foldl (pushCandidate "host") s2
    (Except.ok (), emit s3 (Event.roomJoined roomId))

/-- `createRoom(roomId)` (line 187): the attempt, wrapped in the retry
executor; `script i` is the transport's behaviour on attempt `i`. -/
def createRoom (script : Nat → CreateOutcome) (roomId : String) (s : ManagerState) :
    RetryTrace ManagerState ConnError :=
  retryConnection (fun i => createRoomAttempt roomId (script i)) s

/-- `sendMessageToPeer(message, peerId)` (lines 657–683).  `sendOk peerId`
models whether the channel's `send` throws (the transport is external); on
success the manager emits the local `message` echo. -/
def sendMessageToPeer (sendOk : String → Bool) (m : PeerMessage) (peerId : String)
    (s : ManagerState) : Except ConnError Unit × ManagerState :=
  match mapGet s.connections peerId with
  | none => (Except.error (ConnError.unknownPeer peerId), s)
  | some conn =>
    match conn.dataChannel with
    | none => (Except.error (ConnError.channelNotEstablished peerId), s)
    | some ch =>
      if ch.readyState ≠ "open" then (Except.error (ConnError.channelNotOpen peerId), s)
      else if sendOk peerId then (Except.ok (), emit s (Event.message m peerId))
      else (Except.error (ConnError.sendFailed peerId), s)

/-- The `Promise.all` broadcast (lines 641–646): every per-peer send runs to
completion; the call reports the first failure. -/
def broadcast (sendOk : String → Bool) (m : PeerMessage) :
    List String → ManagerState → Except ConnError Unit × ManagerState
  | [], s => (Except.ok (), s)
  | pid :: rest, s =>
    let r1 := sendMessageToPeer sendOk m pid s
    let r2 := broadcast sendOk m rest r1.2
    (match r1.1 with
     | Except.ok _ => r2.1
     | Except.error e => Except.error e, r2.2)

/-- One attempt of `sendMessage(message, targetPeerId?)` (lines 624–655, the
closure passed to `retryConnection`): `NotInRoom` when `currentRoomId` is
falsy; broadcast when `targetPeerId` is falsy; else targeted send. -/
def sendMessageAttempt (sendOk : String → Bool) (m : PeerMessage)
    (target : Option String) (s : ManagerState) : Except ConnError Unit × ManagerState :=
  if ¬ truthyRoom s.currentRoomId then (Except.error ConnError.notInRoom, s)
  else if truthyTarget target then sendMessageToPeer sendOk m (target.getD "") s
  else broadcast sendOk m (s.connections.map Prod.fst) s

/-- `sendMessage` (line 624): the attempt, wrapped in the retry executor.
The attempt closure does not depend on the attempt index. -/
def sendMessage (sendOk : String → Bool) (m : PeerMessage) (target : Option String)
    (s : ManagerState) : RetryTrace ManagerState ConnError :=
  retryConnection (fun _ => sendMessageAttempt sendOk m target) s

/-- `isConnected(peerId = 'host')` (lines 706–722): false when no entry;
otherwise channel `readyState === 'open'` or connection
`connectionState === 'connected'`. -/
def isConnected (s : ManagerState) (peerId : String := "host") : Bool :=
  match mapGet s.connections peerId with
  | none => false
  | some conn =>
    (match conn.dataChannel with
     | some ch => ch.readyState = "open"
     | none => false) || conn.connection.connectionState = "connected"

/-- `handleConnectionInfo(info, peerId)` (lines 393–423).  `answerSdp` is the
answer the external transport produces on the offer path. -/
def handleConnectionInfo (answerSdp : String) (info : SessionDesc) (peerId : String)
    (s : ManagerState) : ManagerState :=
  if info.type = "offer" ∧ s.isHost then
    let conn : RTCConn :=
      { remoteDescription := some info, localDescription := some ⟨"answer", answerSdp⟩ }
    let entry : PeerConnection :=
      { connection := conn, dataChannel := none, state := "connecting",
        iceConnectionState := "new" }
    let s1 := { s with connections := mapSet s.connections peerId entry }
    emit s1 (Event.connectionInfo ⟨"answer", answerSdp⟩)
  else if info.type = "answer" ∧ ¬ s.isHost then
    match mapGet s.connections "host" with
    | some peer =>
      let peer2 : PeerConnection :=
        { peer with connection := { peer.connection with remoteDescription := some info } }
      { s with connections := mapSet s.connections "host" peer2 }
    | none => s
  else s

/-- Behaviour of the external transport during one `connectWithInfo` attempt:
`failAt = some msg` makes the `RTCPeerConnection` steps fail (after the room
id has been taken from the payload), otherwise the answer and the Guest's own
candidates are produced. -/
structure GuestOutcome where
  answerSdp : String := ""
  cands : List Candidate := []
  failAt : Option String := none

/-- The JavaScript truthiness of a property-access result on the decoded
payload (`!info.sdp` etc.): `undefined`, `null`, `false`, `0` and `""` are
falsy. -/
def truthyJson : Option Json → Bool
  | none => false
  | some Json.null => false
  | some (Json.bool b) => b
  | some (Json.num n) => n ≠ 0
  | some (Json.str s) => s ≠ []
  | some (Json.arr _) => true
  | some (Json.obj _) => true

/-- Property access `info.key` on a decoded JSON value (object fields with
the last-occurrence-wins duplicate rule; `undefined` on non-objects). -/
def jsGet : Json → List Nat → Option Json
  | Json.obj fs, key => jsGetFields fs key
  | _, _ => none

def codesToStr (l : List Nat) : String := String.mk (l.map Char.ofNat)

/-- The room id value stored by `this.currentRoomId = info.roomId`.  The
model's state carries room ids as strings; a truthy non-string `roomId` value
is represented by its serialization (such payloads are outside every claim
considered here). -/
def jsonRoomString : Option Json → String
  | some (Json.str r) => codesToStr r
  | some v => codesToStr (stringify v)
  | none => ""

/-- One attempt of `connectWithInfo(encodedInfo)` (lines 307–391, the closure
passed to `retryConnection`): `JSON.parse(atob(encodedInfo))` (each raising
its own exception on invalid input), the truthiness check of
`info.sdp`/`info.type`/`info.roomId` (`Invalid connection info`), then the
Guest-side connection: room id and role recorded, `localConnection` created,
candidates emitted one by one, the answer emitted twice via `connectionInfo`,
and `roomJoined`. -/
def connectWithInfoAttempt (g : GuestOutcome) (encodedInfo : List Nat)
    (s : ManagerState) : Except ConnError Unit × ManagerState :=
  match atob encodedInfo with
  | none => (Except.error ConnError.atobFailed, s)
  | some txt =>
    match jsonParse txt with
    | none => (Except.error ConnError.jsonParseFailed, s)
    | some info =>
      if ¬ (truthyJson (jsGet info keySdp) ∧ truthyJson (jsGet info keyType)
          ∧ truthyJson (jsGet info keyRoomId)) then
        (Except.error ConnError.invalidConnectionInfo, s)
      else
        let rid := jsonRoomString (jsGet info keyRoomId)
        let s1 := { s with currentRoomId := some rid, isHost := false }
        match g.failAt with
        | some msg =>
          (Except.error (ConnError.transportFailure msg),
            { s1 with localConnection := some ({} : RTCConn) })
        | none =>
          let answer : SessionDesc := ⟨"answer", g.answerSdp⟩
          let lc : RTCConn := { localDescription := some answer }
          let s2 := { s1 with localConnection := some lc }
          let s3 := g.cands.foldl (pushCandidate "peer") s2
          let s4 := emit s3 (Event.connectionInfo answer)
          let s5 := emit s4 (Event.connectionInfo answer)
          (Except.ok (), emit s5 (Event.roomJoined rid))

/-- `connectWithInfo` (line 307): the attempt, wrapped in the retry
executor. -/
def connectWithInfo (g : GuestOutcome) (encodedInfo : List Nat) (s : ManagerState) :
    RetryTrace ManagerState ConnError :=
  retryConnection (fun _ => connectWithInfoAttempt g encodedInfo) s

/-- `disconnect()` (lines 685–690). -/
def disconnect (s : ManagerState) : ManagerState :=
  emit (if truthyRoom s.currentRoomId then leaveRoom s else s) Event.disconnected

deriving instance DecidableEq for Except

/-! ### Concrete data for the claim witnesses and counterexamples -/

/-- A state with room `"r1"` and two registry entries: `"p"` without a data
channel yet, `"q"` with a channel still in state `connecting`. -/
def c3WitState : ManagerState :=
  { currentRoomId := some "r1",
    connections := [("p", ⟨{}, none, "connecting", "new"⟩),
                    ("q", ⟨{}, some ⟨"connecting"⟩, "connecting", "new"⟩)] }

/-- The transport behaviour "every attempt fails" with per-attempt message. -/
def alwaysFailScript : Nat → CreateOutcome
  | 0 => CreateOutcome.failLate "a"
  | 1 => CreateOutcome.failLate "b"
  | _ => CreateOutcome.failLate "c"

/-- The spec's `InvalidHandshakePayload` class (§7): the three decode-phase
failures of `connectWithInfo` — `atob` throwing on a string that is not
validly base64-encoded, `JSON.parse` throwing on invalid JSON, and the
source's own `Invalid connection info` error for payloads without truthy
`type`/`sdp`/`roomId` fields. -/
def InvalidHandshake (e : ConnError) : Prop :=
  e = ConnError.atobFailed ∨ e = ConnError.jsonParseFailed
    ∨ e = ConnError.invalidConnectionInfo

/-! ## 6. Theorems

### Base64 round trip -/

theorem b64Char_ge (i : Nat) : 43 ≤ b64Char i := by
  unfold b64Char; repeat' split
  all_goals omega

theorem b64Char_ne_61 (i : Nat) : b64Char i ≠ 61 := by
  unfold b64Char; repeat' split
  all_goals omega

theorem b64Index_b64Char : ∀ i < 64, b64Index (b64Char i) = some i := by decide

theorem btoaChunks_not_ws : ∀ s, ∀ c ∈ btoaChunks s, isB64Ws c = false
  | [], _, h => by simp [btoaChunks] at h
  | [x], c, h => by
    simp only [btoaChunks, List.mem_cons, List.not_mem_nil, or_false] at h
    have h1 := b64Char_ge (x / 4)
    have h2 := b64Char_ge (x % 4 * 16)
    simp only [isB64Ws]
    rcases h with rfl | rfl | rfl | rfl <;> simp <;> omega
  | [x, y], c, h => by
    simp only [btoaChunks, List.mem_cons, List.not_mem_nil, or_false] at h
    have h1 := b64Char_ge (x / 4)
    have h2 := b64Char_ge (x % 4 * 16 + y / 16)
    have h3 := b64Char_ge (y % 16 * 4)
    simp only [isB64Ws]
    rcases h with rfl | rfl | rfl | rfl <;> simp <;> omega
  | x :: y :: z :: rest, c, h => by
    simp only [btoaChunks, List.mem_cons] at h
    have h1 := b64Char_ge (x / 4)
    have h2 := b64Char_ge (x % 4 * 16 + y / 16)
    have h3 := b64Char_ge (y % 16 * 4 + z / 64)
    have h4 := b64Char_ge (z % 64)
    rcases h with rfl | rfl | rfl | rfl | hm
    · simp only [isB64Ws]; simp; omega
    · simp only [isB64Ws]; simp; omega
    · simp only [isB64Ws]; simp; omega
    · simp only [isB64Ws]; simp; omega
    · exact btoaChunks_not_ws rest c hm

theorem btoaChunks_len4 : ∀ s, (btoaChunks s).length % 4 = 0
  | [] => by simp [btoaChunks]
  | [_] => by simp [btoaChunks]
  | [_, _] => by simp [btoaChunks]
  | _ :: _ :: _ :: rest => by
    simp only [btoaChunks, List.length_cons]
    have := btoaChunks_len4 rest
    omega

theorem dropOneEq_append : ∀ (a r : List Nat), r ≠ [] →
    dropOneEq (a ++ r) = a ++ dropOneEq r
  | [], _, _ => by simp
  | h :: t, r, hr => by
    cases hx : t ++ r with
    | nil => exact absurd (List.append_eq_nil.mp hx).2 hr
    | cons b u =>
      have ih := dropOneEq_append t r hr
      rw [hx] at ih
      simp only [List.cons_append, hx, dropOneEq, ih]

theorem dropOneEq_length : ∀ t : List Nat, t.length - 1 ≤ (dropOneEq t).length
  | [] => by simp [dropOneEq]
  | [c] => by by_cases h : c = 61 <;> simp [dropOneEq, h]
  | c :: d :: rest => by
    have := dropOneEq_length (d :: rest)
    simp only [dropOneEq, List.length_cons] at this ⊢
    omega

theorem stripPad_append (a r : List Nat) (hr : dropOneEq r ≠ []) :
    stripPad (a ++ r) = a ++ stripPad r := by
  have hr0 : r ≠ [] := by
    intro h; rw [h] at hr; exact hr rfl
  unfold stripPad
  rw [dropOneEq_append a r hr0, dropOneEq_append a _ hr]

theorem btoaChunks_len_ge : ∀ s : List Nat, s ≠ [] → 4 ≤ (btoaChunks s).length
  | [], h => absurd rfl h
  | [_], _ => by simp [btoaChunks]
  | [_, _], _ => by simp [btoaChunks]
  | _ :: _ :: _ :: _, _ => by simp [btoaChunks]

/-- Core of the base64 round trip: on `btoa` output, stripping the padding and
decoding the indices recovers the original bytes. -/
theorem b64_core : ∀ s : List Nat, (∀ b ∈ s, b < 256) →
    ∃ idx, mapB64 (stripPad (btoaChunks s)) = some idx ∧ b64DecodeChunks idx = some s
  | [], _ => by
    refine ⟨[], ?_, rfl⟩
    simp [btoaChunks, stripPad, dropOneEq, mapB64]
  | [x], h => by
    have hx : x < 256 := h x (by simp)
    refine ⟨[x / 4, x % 4 * 16], ?_, ?_⟩
    · have e1 : b64Index (b64Char (x / 4)) = some (x / 4) :=
        b64Index_b64Char _ (by omega)
      have e2 : b64Index (b64Char (x % 4 * 16)) = some (x % 4 * 16) :=
        b64Index_b64Char _ (by omega)
      simp [btoaChunks, stripPad, dropOneEq, mapB64, e1, e2]
    · simp only [b64DecodeChunks, Option.some.injEq, List.cons.injEq, and_true]
      omega
  | [x, y], h => by
    have hx : x < 256 := h x (by simp)
    have hy : y < 256 := h y (by simp)
    refine ⟨[x / 4, x % 4 * 16 + y / 16, y % 16 * 4], ?_, ?_⟩
    · have e1 : b64Index (b64Char (x / 4)) = some (x / 4) :=
        b64Index_b64Char _ (by omega)
      have e2 : b64Index (b64Char (x % 4 * 16 + y / 16)) = some (x % 4 * 16 + y / 16) :=
        b64Index_b64Char _ (by omega)
      have e3 : b64Index (b64Char (y % 16 * 4)) = some (y % 16 * 4) :=
        b64Index_b64Char _ (by omega)
      have hne3 : b64Char (y % 16 * 4) ≠ 61 := b64Char_ne_61 _
      simp [btoaChunks, stripPad, dropOneEq, mapB64, e1, e2, e3, hne3]
    · simp only [b64DecodeChunks, Option.some.injEq, List.cons.injEq, and_true]
      constructor <;> omega
  | x :: y :: z :: rest, h => by
    have hx : x < 256 := h x (by simp)
    have hy : y < 256 := h y (by simp)
    have hz : z < 256 := h z (by simp)
    have hrest : ∀ b ∈ rest, b < 256 := fun b hb => h b (by simp [hb])
    obtain ⟨idx, hmap, hdec⟩ := b64_core rest hrest
    have e1 : b64Index (b64Char (x / 4)) = some (x / 4) :=
      b64Index_b64Char _ (by omega)
    have e2 : b64Index (b64Char (x % 4 * 16 + y / 16)) = some (x % 4 * 16 + y / 16) :=
      b64Index_b64Char _ (by omega)
    have e3 : b64Index (b64Char (y % 16 * 4 + z / 64)) = some (y % 16 * 4 + z / 64) :=
      b64Index_b64Char _ (by omega)
    have e4 : b64Index (b64Char (z % 64)) = some (z % 64) :=
      b64Index_b64Char _ (by omega)
    refine ⟨x / 4 :: (x % 4 * 16 + y / 16) :: (y % 16 * 4 + z / 64) :: z % 64 :: idx,
      ?_, ?_⟩
    · have hchunk : btoaChunks (x :: y :: z :: rest)
          = [b64Char (x / 4), b64Char (x % 4 * 16 + y / 16),
             b64Char (y % 16 * 4 + z / 64), b64Char (z % 64)] ++ btoaChunks rest := by
        simp [btoaChunks]
      rw [hchunk]
      rcases eq_or_ne rest [] with rfl | hne
      · have hzne : b64Char (z % 64) ≠ 61 := b64Char_ne_61 _
        simp only [btoaChunks, List.append_nil, stripPad, dropOneEq, if_neg hzne,
          mapB64, e1, e2, e3, e4]
        simp only [btoaChunks, stripPad, dropOneEq, mapB64] at hmap
        cases hmap
        rfl
      · have hdl : dropOneEq (btoaChunks rest) ≠ [] := by
          have hlen := btoaChunks_len_ge rest hne
          have hdll := dropOneEq_length (btoaChunks rest)
          intro hcon
          rw [hcon] at hdll
          simp at hdll
          omega
        rw [stripPad_append _ _ hdl]
        simp [mapB64, e1, e2, e3, e4, hmap]
    · simp only [b64DecodeChunks, hdec, Option.some.injEq, List.cons.injEq, and_true]
      omega

/-- **Base64 round trip**: decoding an encoded Latin-1 byte string recovers it. -/
theorem atob_btoa (s e : List Nat) (henc : btoa s = some e) : atob e = some s := by
  unfold btoa at henc
  split at henc
  · rename_i hall
    have hall' : ∀ b ∈ s, b < 256 := by
      intro b hb
      have := List.all_eq_true.mp hall b hb
      simpa using this
    cases henc
    unfold atob
    have hfilt : (btoaChunks s).filter (fun c => !(isB64Ws c)) = btoaChunks s := by
      apply List.filter_eq_self.mpr
      intro c hc
      simp [btoaChunks_not_ws s c hc]
    obtain ⟨idx, hmap, hdec⟩ := b64_core s hall'
    simp [hfilt, btoaChunks_len4 s, hmap, hdec]
  · exact absurd henc (by simp)

/-! ### Round trip, part 1: strings and numbers -/

theorem parseHex_hexDigit : ∀ a < 16, parseHex (hexDigit a) = some a := by decide

theorem escapeStr_ge_len : ∀ s : List Nat, s.length ≤ (escapeStr s).length
  | [] => by simp [escapeStr]
  | c :: cs => by
    have ih := escapeStr_ge_len cs
    have hc : 1 ≤ (escapeChar c).length := by
      unfold escapeChar
      repeat' split
      all_goals simp
    simp only [escapeStr, List.length_append, List.length_cons]
    omega

theorem parseStringBodyF_escape :
    ∀ (s : List Nat) (fuel : Nat) (rest : List Nat), s.length < fuel →
      parseStringBodyF fuel (escapeStr s ++ 34 :: rest) = some (s, rest)
  | [], fuel, rest, hf => by
    cases fuel with
    | zero => omega
    | succ f => simp [escapeStr, parseStringBodyF]
  | c :: cs, fuel, rest, hf => by
    cases fuel with
    | zero => omega
    | succ f =>
      have ih := parseStringBodyF_escape cs f rest (by simp at hf; omega)
      by_cases h34 : c = 34
      · subst h34
        simp [escapeStr, escapeChar, parseStringBodyF, ih]
      by_cases h92 : c = 92
      · subst h92
        simp [escapeStr, escapeChar, parseStringBodyF, ih]
      by_cases h8 : c = 8
      · subst h8
        simp [escapeStr, escapeChar, parseStringBodyF, ih]
      by_cases h9 : c = 9
      · subst h9
        simp [escapeStr, escapeChar, parseStringBodyF, ih]
      by_cases h10 : c = 10
      · subst h10
        simp [escapeStr, escapeChar, parseStringBodyF, ih]
      by_cases h12 : c = 12
      · subst h12
        simp [escapeStr, escapeChar, parseStringBodyF, ih]
      by_cases h13 : c = 13
      · subst h13
        simp [escapeStr, escapeChar, parseStringBodyF, ih]
      by_cases hlt : c < 32
      · have e0 : parseHex 48 = some 0 := by decide
        have e1 : parseHex (hexDigit (c / 16)) = some (c / 16) :=
          parseHex_hexDigit _ (by omega)
        have e2 : parseHex (hexDigit (c % 16)) = some (c % 16) :=
          parseHex_hexDigit _ (by omega)
        have hval : (((0 * 16 + 0) * 16 + c / 16) * 16 + c % 16) = c := by omega
        simp [escapeStr, escapeChar, h34, h92, h8, h9, h10, h12, h13, hlt,
          parseStringBodyF, e0, e1, e2, ih, hval]
        omega
      · simp [escapeStr, escapeChar, h34, h92, h8, h9, h10, h12, h13, hlt,
          parseStringBodyF, ih]

/-- Inverting `JSON.stringify` string escaping. -/
theorem parseStringBody_escape (s rest : List Nat) :
    parseStringBody (escapeStr s ++ 34 :: rest) = some (s, rest) := by
  unfold parseStringBody
  apply parseStringBodyF_escape
  have h1 := escapeStr_ge_len s
  simp only [List.length_append, List.length_cons]
  omega

theorem natDigits_lt (n : Nat) (h : n < 10) : natDigits n = [48 + n] := by
  rw [natDigits]
  simp [h]

theorem natDigits_ge (n : Nat) (h : ¬ n < 10) :
    natDigits n = natDigits (n / 10) ++ [48 + n % 10] := by
  conv_lhs => rw [natDigits]
  simp [h]

theorem natDigits_all_digits (n : Nat) : ∀ c ∈ natDigits n, isDigitC c = true := by
  induction n using Nat.strong_induction_on with
  | _ n ih =>
    by_cases h : n < 10
    · rw [natDigits_lt n h]
      intro c hc
      simp at hc
      simp [isDigitC, hc]
      omega
    · rw [natDigits_ge n h]
      intro c hc
      rw [List.mem_append] at hc
      rcases hc with hc | hc
      · exact ih (n / 10) (Nat.div_lt_self (by omega) (by omega)) c hc
      · simp at hc
        have : n % 10 < 10 := Nat.mod_lt _ (by omega)
        simp [isDigitC, hc]
        omega

theorem natDigits_cons (n : Nat) :
    ∃ c t, natDigits n = c :: t ∧ isDigitC c = true ∧ (0 < n → c ≠ 48) := by
  induction n using Nat.strong_induction_on with
  | _ n ih =>
    by_cases h : n < 10
    · refine ⟨48 + n, [], natDigits_lt n h, ?_, ?_⟩
      · simp [isDigitC]; omega
      · omega
    · obtain ⟨c, t, hct, hdig, hne⟩ := ih (n / 10) (Nat.div_lt_self (by omega) (by omega))
      refine ⟨c, t ++ [48 + n % 10], ?_, hdig, ?_⟩
      · rw [natDigits_ge n h, hct]
        simp
      · intro _
        exact hne (by omega)

theorem digitsVal_append : ∀ (l : List Nat) (acc d : Nat),
    digitsVal acc (l ++ [d]) = digitsVal acc l * 10 + (d - 48)
  | [], _, _ => rfl
  | c :: cs, acc, d => digitsVal_append cs (acc * 10 + (c - 48)) d

theorem digitsVal_natDigits (n : Nat) :
    ∀ acc, digitsVal acc (natDigits n) = acc * 10 ^ (natDigits n).length + n := by
  induction n using Nat.strong_induction_on with
  | _ n ih =>
    intro acc
    by_cases h : n < 10
    · simp only [natDigits_lt n h]
      show acc * 10 + (48 + n - 48) = acc * 10 ^ [48 + n].length + n
      simp
    · have e1 : natDigits n = natDigits (n / 10) ++ [48 + n % 10] := natDigits_ge n h
      have e2 := digitsVal_append (natDigits (n / 10)) acc (48 + n % 10)
      have e3 := ih (n / 10) (Nat.div_lt_self (by omega) (by omega)) acc
      simp only [e1, e2, e3]
      have h48 : 48 + n % 10 - 48 = n % 10 := by omega
      simp only [h48, List.length_append, List.length_cons, List.length_nil, pow_succ]
      have hnm : n / 10 * 10 + n % 10 = n := by omega
      have hring : (acc * 10 ^ (natDigits (n / 10)).length + n / 10) * 10 + n % 10
          = acc * (10 ^ (natDigits (n / 10)).length * 10) + (n / 10 * 10 + n % 10) := by ring
      rw [hring, hnm]

theorem takeDigits_app :
    ∀ (ds rest : List Nat), (∀ c ∈ ds, isDigitC c = true) → headNotDigit rest = true →
      takeDigits (ds ++ rest) = (ds, rest)
  | [], rest, _, hrest => by
    cases rest with
    | nil => simp [takeDigits]
    | cons h t =>
      simp [headNotDigit] at hrest
      simp [takeDigits, hrest]
  | d :: ds, rest, hds, hrest => by
    have ih := takeDigits_app ds rest (fun c hc => hds c (by simp [hc])) hrest
    have hd : isDigitC d = true := hds d (by simp)
    simp [takeDigits, hd, ih]

theorem parseNumAux_natDigits (m : Nat) (neg : Bool) (rest : List Nat)
    (h1 : headNotDigit rest = true) (h2 : numBreak rest = false) :
    parseNumAux neg (natDigits m ++ rest)
      = some (if neg then -(m : Int) else (m : Int), rest) := by
  obtain ⟨c, t, hct, hdig, hne⟩ := natDigits_cons m
  have htd : ∀ x ∈ t, isDigitC x = true := by
    intro x hx
    exact natDigits_all_digits m x (by simp only [hct]; simp [hx])
  have htake : takeDigits (t ++ rest) = (t, rest) := takeDigits_app t rest htd h1
  have hlead : ¬ (c = 48 ∧ t ≠ []) := by
    rcases Nat.eq_zero_or_pos m with rfl | hm
    · have h48 : natDigits 0 = [48] := natDigits_lt 0 (by omega)
      rw [h48] at hct
      cases hct
      simp
    · intro ⟨hc48, _⟩
      exact hne hm hc48
  have hcons : digitsVal 0 (c :: t) = digitsVal (0 * 10 + (c - 48)) t := rfl
  have hval : digitsVal (c - 48) t = m := by
    have h0 := digitsVal_natDigits m 0
    simp only [hct, hcons] at h0
    simpa using h0
  simp only [hct, List.cons_append]
  simp [parseNumAux, hdig, htake, hlead, h2, hval]

theorem parseNumber_intToChars (n : Int) (rest : List Nat)
    (h1 : headNotDigit rest = true) (h2 : numBreak rest = false) :
    parseNumber (intToChars n ++ rest) = some (n, rest) := by
  by_cases hn : n < 0
  · have e : intToChars n = 45 :: natDigits (-n).toNat := by simp [intToChars, hn]
    have hx := parseNumAux_natDigits (-n).toNat true rest h1 h2
    simp only [e, List.cons_append, parseNumber, if_pos rfl, if_true, hx]
    have h0 : ((-n).toNat : Int) = -n := Int.toNat_of_nonneg (by omega)
    simp [h0]
  · have e : intToChars n = natDigits n.toNat := by simp [intToChars, hn]
    obtain ⟨c, t, hct, hdig, _⟩ := natDigits_cons n.toNat
    have hc45 : c ≠ 45 := by
      simp [isDigitC] at hdig
      omega
    have hx := parseNumAux_natDigits n.toNat false rest h1 h2
    simp only [hct, List.cons_append] at hx
    simp only [e, hct, List.cons_append, parseNumber, if_neg hc45, hx]
    simp [Int.toNat_of_nonneg (by omega : (0 : Int) ≤ n)]

/-! ### Round trip, part 2: values -/

theorem skipWs_cons (c : Nat) (t : List Nat) (h : isJsonWs c = false) :
    skipWs (c :: t) = c :: t := by
  simp [skipWs, h]

theorem afterVal_num (rest : List Nat) (h : afterVal rest = true) :
    headNotDigit rest = true ∧ numBreak rest = false := by
  cases rest with
  | nil => simp [headNotDigit, numBreak]
  | cons h t =>
    simp [afterVal] at h
    rcases h with (rfl | rfl) | rfl <;> simp [headNotDigit, numBreak, isDigitC]

theorem intToChars_head (n : Int) :
    ∃ c t, intToChars n = c :: t ∧ (c = 45 ∨ (48 ≤ c ∧ c ≤ 57)) := by
  by_cases hn : n < 0
  · exact ⟨45, natDigits (-n).toNat, by simp [intToChars, hn], Or.inl rfl⟩
  · obtain ⟨c, t, hct, hdig, _⟩ := natDigits_cons n.toNat
    refine ⟨c, t, ?_, Or.inr ?_⟩
    · simp [intToChars, hn, hct]
    · simp [isDigitC] at hdig
      omega

theorem stringify_head (v : Json) :
    ∃ c t, stringify v = c :: t ∧ isJsonWs c = false ∧ c ≠ 93 ∧ c ≠ 125 := by
  cases v with
  | null => exact ⟨110, [117, 108, 108], by simp [stringify], by decide, by decide, by decide⟩
  | bool b =>
    cases b with
    | true => exact ⟨116, [114, 117, 101], by simp [stringify], by decide, by decide, by decide⟩
    | false => exact ⟨102, [97, 108, 115, 101], by simp [stringify], by decide, by decide, by decide⟩
  | num n =>
    obtain ⟨c, t, hct, hc⟩ := intToChars_head n
    refine ⟨c, t, by simp [stringify, hct], ?_, ?_, ?_⟩ <;>
      (simp [isJsonWs]; omega)
  | str s =>
    exact ⟨34, escapeStr s ++ [34], by simp [stringify, quoteStr], by decide, by decide, by decide⟩
  | arr xs =>
    exact ⟨91, stringifyElems xs ++ [93], by simp [stringify], by decide, by decide, by decide⟩
  | obj fs =>
    exact ⟨123, stringifyFields fs ++ [125], by simp [stringify], by decide, by decide, by decide⟩

theorem stringify_len_pos (v : Json) : 1 ≤ (stringify v).length := by
  obtain ⟨c, t, hct, -⟩ := stringify_head v
  simp [hct]

theorem quoteStr_len (k : List Nat) : (quoteStr k).length = (escapeStr k).length + 2 := by
  simp [quoteStr]

mutual

theorem rt_val : ∀ (v : Json) (fuel : Nat) (rest : List Nat),
    (stringify v).length < fuel → afterVal rest = true →
    parseVal fuel (stringify v ++ rest) = some (v, rest)
  | .null, fuel, rest, hf, _ => by
    cases fuel with
    | zero => simp [stringify] at hf
    | succ f => simp [stringify, parseVal, skipWs, isJsonWs]
  | .bool b, fuel, rest, hf, _ => by
    cases fuel with
    | zero => cases b <;> simp [stringify] at hf
    | succ f => cases b <;> simp [stringify, parseVal, skipWs, isJsonWs]
  | .num n, fuel, rest, hf, hr => by
    cases fuel with
    | zero => omega
    | succ f =>
      obtain ⟨hnd, hnb⟩ := afterVal_num rest hr
      have hnum := parseNumber_intToChars n rest hnd hnb
      obtain ⟨c, t, hct, hc⟩ := intToChars_head n
      have hcw : isJsonWs c = false := by
        simp [isJsonWs]
        omega
      have hcval : c = 45 ∨ isDigitC c = true := by
        rcases hc with h | h
        · exact Or.inl h
        · right
          simp [isDigitC]
          omega
      have harg : stringify (.num n) ++ rest = c :: (t ++ rest) := by
        simp [stringify, hct]
      rw [harg]
      have hskip := skipWs_cons c (t ++ rest) hcw
      have hback : c :: (t ++ rest) = intToChars n ++ rest := by simp [hct]
      simp only [parseVal, hskip]
      rw [if_neg (by omega : ¬ c = 110), if_neg (by omega : ¬ c = 116),
        if_neg (by omega : ¬ c = 102), if_neg (by omega : ¬ c = 34),
        if_neg (by omega : ¬ c = 91), if_neg (by omega : ¬ c = 123),
        if_pos hcval, hback, hnum]
  | .str s, fuel, rest, hf, _ => by
    cases fuel with
    | zero => omega
    | succ f =>
      have harg : stringify (.str s) ++ rest = 34 :: (escapeStr s ++ 34 :: rest) := by
        simp [stringify, quoteStr]
      rw [harg]
      simp [parseVal, skipWs, isJsonWs, parseStringBody_escape]
  | .arr [], fuel, rest, hf, _ => by
    cases fuel with
    | zero => omega
    | succ f =>
      have harg : stringify (.arr []) ++ rest = 91 :: 93 :: rest := by
        simp [stringify, stringifyElems]
      rw [harg]
      simp [parseVal, skipWs, isJsonWs]
  | .arr (e :: es), fuel, rest, hf, _ => by
    cases fuel with
    | zero => omega
    | succ f =>
      have hlen : (stringifyElems (e :: es)).length + 1 < f := by
        have : stringify (.arr (e :: es)) = 91 :: stringifyElems (e :: es) ++ [93] := by
          simp [stringify]
        rw [this] at hf
        simp at hf
        omega
      have key := rt_elems e es f rest hlen
      obtain ⟨c0, t0, he, hw0, h93, _⟩ := stringify_head e
      have hhead : ∃ t, stringifyElems (e :: es) = c0 :: t := by
        cases es with
        | nil => exact ⟨t0, by simp [stringifyElems, he]⟩
        | cons y ys =>
          exact ⟨t0 ++ 44 :: stringifyElems (y :: ys), by simp [stringifyElems, he]⟩
      obtain ⟨t1, hh⟩ := hhead
      rw [hh] at key
      simp only [List.cons_append] at key
      have harg : stringify (.arr (e :: es)) ++ rest
          = 91 :: (c0 :: (t1 ++ 93 :: rest)) := by
        simp [stringify, hh]
      rw [harg]
      simp [parseVal, skipWs_cons 91 _ (by decide), skipWs_cons c0 _ hw0, h93, key]
  | .obj [], fuel, rest, hf, _ => by
    cases fuel with
    | zero => omega
    | succ f =>
      have harg : stringify (.obj []) ++ rest = 123 :: 125 :: rest := by
        simp [stringify, stringifyFields]
      rw [harg]
      simp [parseVal, skipWs, isJsonWs]
  | .obj (kv :: fs), fuel, rest, hf, _ => by
    cases fuel with
    | zero => omega
    | succ f =>
      have hlen : (stringifyFields (kv :: fs)).length + 1 < f := by
        have : stringify (.obj (kv :: fs)) = 123 :: stringifyFields (kv :: fs) ++ [125] := by
          simp [stringify]
        rw [this] at hf
        simp at hf
        omega
      have key := rt_members kv fs f rest hlen
      have hhead : ∃ u, stringifyFields (kv :: fs) = 34 :: u := by
        cases kv with
        | mk k v =>
          cases fs with
          | nil => exact ⟨escapeStr k ++ 34 :: 58 :: stringify v, by
              simp [stringifyFields, quoteStr]⟩
          | cons f2 fs2 => exact ⟨escapeStr k ++ 34 :: 58 :: (stringify v ++
              44 :: stringifyFields (f2 :: fs2)), by simp [stringifyFields, quoteStr]⟩
      obtain ⟨u, hh⟩ := hhead
      rw [hh] at key
      simp only [List.cons_append] at key
      have harg : stringify (.obj (kv :: fs)) ++ rest
          = 123 :: (34 :: (u ++ 125 :: rest)) := by
        simp [stringify, hh]
      rw [harg]
      simp [parseVal, skipWs_cons 123 _ (by decide), skipWs_cons 34 _ (by decide), key]
  termination_by v _ _ _ _ => sizeOf v

theorem rt_elems : ∀ (e : Json) (es : List Json) (fuel : Nat) (rest : List Nat),
    (stringifyElems (e :: es)).length + 1 < fuel →
    parseElems fuel (stringifyElems (e :: es) ++ 93 :: rest) = some (e :: es, rest)
  | e, [], fuel, rest, hf => by
    cases fuel with
    | zero => omega
    | succ f =>
      have hfe : (stringify e).length < f := by
        simp only [stringifyElems] at hf
        omega
      have hv := rt_val e f (93 :: rest) hfe (by simp [afterVal])
      have harg : stringifyElems [e] ++ 93 :: rest = stringify e ++ 93 :: rest := by
        simp [stringifyElems]
      rw [harg]
      simp only [parseElems, hv, skipWs_cons 93 _ (by decide)]
      simp
  | e, x :: xs, fuel, rest, hf => by
    cases fuel with
    | zero => omega
    | succ f =>
      have hpos := stringify_len_pos e
      have hlens : stringifyElems (e :: x :: xs)
          = stringify e ++ 44 :: stringifyElems (x :: xs) := by
        simp [stringifyElems]
      have hfe : (stringify e).length < f := by
        rw [hlens] at hf
        simp at hf
        omega
      have hfx : (stringifyElems (x :: xs)).length + 1 < f := by
        rw [hlens] at hf
        simp at hf
        omega
      have hv := rt_val e f (44 :: (stringifyElems (x :: xs) ++ 93 :: rest)) hfe
        (by simp [afterVal])
      have key := rt_elems x xs f rest hfx
      have harg : stringifyElems (e :: x :: xs) ++ 93 :: rest
          = stringify e ++ (44 :: (stringifyElems (x :: xs) ++ 93 :: rest)) := by
        rw [hlens]
        simp
      rw [harg]
      simp only [parseElems, hv, skipWs_cons 44 _ (by decide)]
      simp [key]
  termination_by e es _ _ _ => sizeOf e + sizeOf es

theorem rt_members : ∀ (kv : List Nat × Json) (fs : List (List Nat × Json))
    (fuel : Nat) (rest : List Nat),
    (stringifyFields (kv :: fs)).length + 1 < fuel →
    parseMembers fuel (stringifyFields (kv :: fs) ++ 125 :: rest) = some (kv :: fs, rest)
  | (k, v), [], fuel, rest, hf => by
    cases fuel with
    | zero => omega
    | succ f =>
      have hfv : (stringify v).length < f := by
        simp only [stringifyFields, quoteStr] at hf
        simp at hf
        omega
      have hv := rt_val v f (125 :: rest) hfv (by simp [afterVal])
      have harg : stringifyFields [(k, v)] ++ 125 :: rest
          = 34 :: (escapeStr k ++ 34 :: (58 :: (stringify v ++ 125 :: rest))) := by
        simp [stringifyFields, quoteStr]
      rw [harg]
      simp [parseMembers, skipWs_cons 34 _ (by decide), parseStringBody_escape,
        skipWs_cons 58 _ (by decide), hv, skipWs_cons 125 _ (by decide)]
  | (k, v), f2 :: fs2, fuel, rest, hf => by
    cases fuel with
    | zero => omega
    | succ f =>
      have hpos := stringify_len_pos v
      have hlens : stringifyFields ((k, v) :: f2 :: fs2)
          = quoteStr k ++ 58 :: stringify v ++ 44 :: stringifyFields (f2 :: fs2) := by
        simp [stringifyFields]
      have hfv : (stringify v).length < f := by
        rw [hlens] at hf
        simp [quoteStr] at hf
        omega
      have hfx : (stringifyFields (f2 :: fs2)).length + 1 < f := by
        rw [hlens] at hf
        simp [quoteStr] at hf
        omega
      have hv := rt_val v f (44 :: (stringifyFields (f2 :: fs2) ++ 125 :: rest)) hfv
        (by simp [afterVal])
      have key := rt_members f2 fs2 f rest hfx
      have harg : stringifyFields ((k, v) :: f2 :: fs2) ++ 125 :: rest
          = 34 :: (escapeStr k ++ 34 :: (58 :: (stringify v
              ++ (44 :: (stringifyFields (f2 :: fs2) ++ 125 :: rest))))) := by
        rw [hlens]
        simp [quoteStr]
      rw [harg]
      simp [parseMembers, skipWs_cons 34 _ (by decide), parseStringBody_escape,
        skipWs_cons 58 _ (by decide), hv, skipWs_cons 44 _ (by decide), key]
  termination_by kv fs _ _ _ => sizeOf kv + sizeOf fs

end

/-- **JSON round trip**: parsing serialized output recovers the value exactly,
for every `Json` value. -/
theorem jsonParse_stringify (v : Json) : jsonParse (stringify v) = some v := by
  have h := rt_val v ((stringify v).length + 1) [] (by omega) rfl
  rw [List.append_nil] at h
  unfold jsonParse
  rw [h]
  simp [skipWs]

theorem hexDigit_lt256 (n : Nat) : hexDigit n < 256 ∨ 16 ≤ n := by
  unfold hexDigit
  split <;> omega

theorem escapeChar_lt256 (c : Nat) (hc : c < 256) : ∀ x ∈ escapeChar c, x < 256 := by
  intro x hx
  have h1 : hexDigit (c / 16) < 256 := by
    rcases hexDigit_lt256 (c / 16) with h | h
    · exact h
    · omega
  have h2 : hexDigit (c % 16) < 256 := by
    rcases hexDigit_lt256 (c % 16) with h | h
    · exact h
    · have := Nat.mod_lt c (show 0 < 16 by omega)
      omega
  unfold escapeChar at hx
  repeat' split at hx
  all_goals simp at hx
  all_goals omega

theorem escapeStr_lt256 : ∀ (s : List Nat), s.all (· < 256) = true →
    ∀ x ∈ escapeStr s, x < 256
  | [], _, x, hx => by simp [escapeStr] at hx
  | c :: cs, h, x, hx => by
    simp only [List.all_cons, Bool.and_eq_true, decide_eq_true_eq] at h
    simp only [escapeStr, List.mem_append] at hx
    rcases hx with hx | hx
    · exact escapeChar_lt256 c h.1 x hx
    · exact escapeStr_lt256 cs h.2 x hx

theorem intToChars_lt256 (n : Int) : ∀ x ∈ intToChars n, x < 256 := by
  intro x hx
  unfold intToChars at hx
  split at hx
  · simp only [List.mem_cons] at hx
    rcases hx with rfl | hx
    · omega
    · have := natDigits_all_digits _ x hx
      simp [isDigitC] at this
      omega
  · have := natDigits_all_digits _ x hx
    simp [isDigitC] at this
    omega

theorem quoteStr_lt256 (k : List Nat) (h : k.all (· < 256) = true) :
    ∀ x ∈ quoteStr k, x < 256 := by
  intro x hx
  rcases List.mem_cons.mp hx with rfl | hx1
  · omega
  rcases List.mem_append.mp hx1 with hx2 | hx2
  · exact escapeStr_lt256 k h x hx2
  · simp at hx2
    omega

mutual

theorem latin1_stringify : ∀ (v : Json), latin1 v = true → ∀ x ∈ stringify v, x < 256
  | .null, _, x, hx => by
    simp [stringify] at hx
    omega
  | .bool b, _, x, hx => by
    cases b <;> (simp [stringify] at hx; omega)
  | .num n, _, x, hx => intToChars_lt256 n x (by simpa [stringify] using hx)
  | .str s, h, x, hx => by
    simp only [latin1] at h
    exact quoteStr_lt256 s h x (by simpa [stringify] using hx)
  | .arr xs, h, x, hx => by
    simp only [latin1] at h
    have hx0 : x ∈ 91 :: (stringifyElems xs ++ [93]) := by simpa [stringify] using hx
    rcases List.mem_cons.mp hx0 with rfl | hx1
    · omega
    rcases List.mem_append.mp hx1 with hx2 | hx2
    · exact latin1_stringifyL xs h x hx2
    · simp at hx2
      omega
  | .obj fs, h, x, hx => by
    simp only [latin1] at h
    have hx0 : x ∈ 123 :: (stringifyFields fs ++ [125]) := by simpa [stringify] using hx
    rcases List.mem_cons.mp hx0 with rfl | hx1
    · omega
    rcases List.mem_append.mp hx1 with hx2 | hx2
    · exact latin1_stringifyF fs h x hx2
    · simp at hx2
      omega

theorem latin1_stringifyL : ∀ (xs : List Json), latin1L xs = true →
    ∀ x ∈ stringifyElems xs, x < 256
  | [], _, x, hx => by simp [stringifyElems] at hx
  | [v], h, x, hx => by
    simp only [latin1L, Bool.and_eq_true, and_true] at h
    exact latin1_stringify v h x (by simpa [stringifyElems] using hx)
  | v :: w :: rest, h, x, hx => by
    simp only [latin1L, Bool.and_eq_true] at h
    have hx0 : x ∈ stringify v ++ 44 :: stringifyElems (w :: rest) := by
      simpa [stringifyElems] using hx
    rcases List.mem_append.mp hx0 with hx1 | hx1
    · exact latin1_stringify v h.1 x hx1
    rcases List.mem_cons.mp hx1 with rfl | hx2
    · omega
    · exact latin1_stringifyL (w :: rest) (by simp only [latin1L, Bool.and_eq_true]; exact h.2) x hx2

theorem latin1_stringifyF : ∀ (fs : List (List Nat × Json)), latin1F fs = true →
    ∀ x ∈ stringifyFields fs, x < 256
  | [], _, x, hx => by simp [stringifyFields] at hx
  | [(k, v)], h, x, hx => by
    simp only [latin1F, Bool.and_eq_true, and_true] at h
    have hx0 : x ∈ quoteStr k ++ 58 :: stringify v := by
      simpa [stringifyFields] using hx
    rcases List.mem_append.mp hx0 with hx1 | hx1
    · exact quoteStr_lt256 k h.1 x hx1
    rcases List.mem_cons.mp hx1 with rfl | hx2
    · omega
    · exact latin1_stringify v h.2 x hx2
  | (k, v) :: f2 :: rest, h, x, hx => by
    simp only [latin1F, Bool.and_eq_true] at h
    have hx0 : x ∈ quoteStr k ++ 58 :: (stringify v ++ 44 :: stringifyFields (f2 :: rest)) := by
      simpa [stringifyFields] using hx
    rcases List.mem_append.mp hx0 with hx1 | hx1
    · exact quoteStr_lt256 k h.1.1 x hx1
    rcases List.mem_cons.mp hx1 with rfl | hx2
    · omega
    rcases List.mem_append.mp hx2 with hx3 | hx3
    · exact latin1_stringify v h.1.2 x hx3
    rcases List.mem_cons.mp hx3 with rfl | hx4
    · omega
    · exact latin1_stringifyF (f2 :: rest) (by simp only [latin1F, Bool.and_eq_true]; exact h.2) x hx4

end

/-- C1: For every valid handshake payload `p`, decoding the encoded form
yields `p` again: `decodeSignalingData (encodeSignalingData p) = p`, where
`encodeSignalingData` is base64-of-JSON and `decodeSignalingData` is its
inverse (`src/utils/signalilng.ts`). -/
theorem C1_signaling_roundtrip (p : Json) (hp : ValidHandshakePayload p) :
    ∃ e, encodeSignalingData p = some e ∧ decodeSignalingData e = some p := by
  obtain ⟨hl, -⟩ := hp
  have hall : (stringify p).all (· < 256) = true := by
    rw [List.all_eq_true]
    intro x hx
    simpa using latin1_stringify p hl x hx
  have henc : encodeSignalingData p = some (btoaChunks (stringify p)) := by
    unfold encodeSignalingData btoa
    rw [if_pos hall]
  refine ⟨btoaChunks (stringify p), henc, ?_⟩
  have hdec : atob (btoaChunks (stringify p)) = some (stringify p) :=
    atob_btoa _ _ (by unfold btoa; rw [if_pos hall])
  unfold decodeSignalingData
  rw [hdec]
  exact jsonParse_stringify p

/-- C1 witness: a concrete valid payload, round-tripped by applying
`C1_signaling_roundtrip`. -/
theorem C1_signaling_roundtrip_witness :
    ValidHandshakePayload (Json.obj [(keyType, Json.str [111, 102, 102, 101, 114]),
      (keySdp, Json.str [118, 61, 48]), (keyRoomId, Json.str [114, 49]),
      (keyCandidates, Json.arr [Json.str [99, 49]])]) ∧
    ∃ e, encodeSignalingData (Json.obj [(keyType, Json.str [111, 102, 102, 101, 114]),
      (keySdp, Json.str [118, 61, 48]), (keyRoomId, Json.str [114, 49]),
      (keyCandidates, Json.arr [Json.str [99, 49]])]) = some e ∧
      decodeSignalingData e = some (Json.obj [(keyType, Json.str [111, 102, 102, 101, 114]),
        (keySdp, Json.str [118, 61, 48]), (keyRoomId, Json.str [114, 49]),
        (keyCandidates, Json.arr [Json.str [99, 49]])]) := by
  have hp : ValidHandshakePayload (Json.obj [(keyType, Json.str [111, 102, 102, 101, 114]),
      (keySdp, Json.str [118, 61, 48]), (keyRoomId, Json.str [114, 49]),
      (keyCandidates, Json.arr [Json.str [99, 49]])]) := by
    constructor
    · simp [latin1, latin1F, latin1L, keyType, keySdp, keyRoomId, keyCandidates]
    · refine ⟨_, rfl, ?_, ?_, ?_, ⟨[Json.str [99, 49]], ?_⟩⟩ <;>
        simp [jsGetFields, keyType, keySdp, keyRoomId, keyCandidates]
  exact ⟨hp, C1_signaling_roundtrip _ hp⟩

/-- C2: the retry executor makes at most 3 total attempts; it returns as soon
as one attempt succeeds (an operation that fails twice then succeeds is
invoked exactly 3 times); if every attempt fails it propagates the third
attempt's error unmodified after exactly 3 invocations; the delay before
attempt `i` (0-indexed, `i ≥ 1`) is `2^(i-1)` time units of 1000 ms
(`[1000, 2000]` in the 3-attempt traces) and there is no delay before the
first attempt. -/
theorem C2_retry_executor {ε : Type} (fn : Nat → Except ε Unit) :
    (retryConnection (liftPure fn) ()).attempts ≤ 3 ∧
    (fn 0 = Except.ok () →
      retryConnection (liftPure fn) () = ⟨Except.ok (), (), 1, []⟩) ∧
    (∀ e0, fn 0 = Except.error e0 → fn 1 = Except.ok () →
      retryConnection (liftPure fn) () = ⟨Except.ok (), (), 2, [1000]⟩) ∧
    (∀ e0 e1, fn 0 = Except.error e0 → fn 1 = Except.error e1 → fn 2 = Except.ok () →
      retryConnection (liftPure fn) () = ⟨Except.ok (), (), 3, [1000, 2000]⟩) ∧
    (∀ e0 e1 e2, fn 0 = Except.error e0 → fn 1 = Except.error e1 → fn 2 = Except.error e2 →
      retryConnection (liftPure fn) () = ⟨Except.error e2, (), 3, [1000, 2000]⟩) := by
  refine ⟨?_, ?_, ?_, ?_, ?_⟩
  · unfold retryConnection retryAux
    rcases h0 : fn 0 with e | u
    · simp [liftPure, h0, retryAux]
      rcases h1 : fn 1 with e1 | u1
      · simp [h1, retryAux]
        rcases h2 : fn 2 with e2 | u2 <;> simp [h2]
      · simp [h1]
    · simp [liftPure, h0]
  · intro h0
    unfold retryConnection retryAux
    simp [liftPure, h0]
  · intro e0 h0 h1
    unfold retryConnection retryAux
    simp [liftPure, h0, retryAux, h1]
  · intro e0 e1 h0 h1 h2
    unfold retryConnection retryAux
    simp [liftPure, h0, retryAux, h1, h2]
  · intro e0 e1 e2 h0 h1 h2
    unfold retryConnection retryAux
    simp [liftPure, h0, retryAux, h1, h2]

/-- C2 witness: the concrete operation that fails twice (`"e0"`, `"e1"`) and
then succeeds is invoked exactly 3 times with delays 1000 and 2000 ms, by
applying `C2_retry_executor`. -/
theorem C2_retry_executor_witness :
    (retryConnection (liftPure (fun i =>
        if i < 2 then Except.error i else Except.ok ())) ())
      = ⟨Except.ok (), (), 3, [1000, 2000]⟩ := by
  have h := C2_retry_executor (fun i =>
    if i < 2 then Except.error i else Except.ok ())
  exact h.2.2.2.1 0 1 (by simp) (by simp) (by simp)

/-! ### Helper lemmas: retry traces and teardown -/

/-- An attempt that fails without touching the state fails the whole
3-attempt executor with the same error and state, after 3 invocations. -/
theorem retry_const_fail {σ ε : Type} (fn : Nat → σ → Except ε Unit × σ) (s : σ) (e : ε)
    (h : ∀ i, fn i s = (Except.error e, s)) :
    retryConnection fn s = ⟨Except.error e, s, 3, [1000, 2000]⟩ := by
  unfold retryConnection retryAux
  simp only [h 0]
  simp only [retryAux, h 1]
  simp only [retryAux, h 2]
  simp

/-- Any property of every attempt's post-state holds of the executor's final
state (with at least one attempt). -/
theorem retry_state_post {σ ε : Type} (fn : Nat → σ → Except ε Unit × σ) (P : σ → Prop)
    (hP : ∀ j s', P (fn j s').2) :
    ∀ (i rem : Nat) (s : σ), 1 ≤ rem → P ((retryAux fn i rem s).state) := by
  intro i rem
  induction rem generalizing i with
  | zero => omega
  | succ r ih =>
    intro s _
    rcases hr : fn i s with ⟨res, s1⟩
    cases res with
    | ok u =>
      simp only [retryAux, hr]
      have := hP i s
      rw [hr] at this
      exact this
    | error e =>
      by_cases h0 : r = 0
      · subst h0
        simp only [retryAux, hr, if_pos rfl]
        have := hP i s
        rw [hr] at this
        exact this
      · simp only [retryAux, hr, if_neg h0]
        exact ih (i + 1) s1 (by omega)

/-- If every attempt fails, the executor propagates the last attempt's error
unmodified. -/
theorem retry_all_fail {σ ε : Type} (fn : Nat → σ → Except ε Unit × σ) (err : Nat → ε)
    (hf : ∀ (j : Nat) (s' : σ), (fn j s').1 = Except.error (err j)) :
    ∀ (i rem : Nat) (s : σ), 1 ≤ rem →
      (retryAux fn i rem s).result = Except.error (err (i + rem - 1)) := by
  intro i rem
  induction rem generalizing i with
  | zero => omega
  | succ r ih =>
    intro s _
    rcases hr : fn i s with ⟨res, s1⟩
    have := hf i s
    rw [hr] at this
    simp at this
    subst this
    by_cases h0 : r = 0
    · subst h0
      have he : i + 1 - 1 = i := by omega
      simp [retryAux, hr, he]
    · simp only [retryAux, hr, if_neg h0]
      have hx := ih (i + 1) s1 (by omega)
      rw [hx]
      have he : i + 1 + r - 1 = i + (r + 1) - 1 := by omega
      rw [he]

/-- `pushCandidate` only appends to the event log and candidate buffer; it
leaves every other field unchanged. -/
theorem pushCandidate_fold_fields (pid : String) :
    ∀ (cs : List Candidate) (s : ManagerState),
      (cs.foldl (pushCandidate pid) s).currentRoomId = s.currentRoomId ∧
      (cs.foldl (pushCandidate pid) s).connections = s.connections ∧
      (cs.foldl (pushCandidate pid) s).isHost = s.isHost ∧
      ∃ d, (cs.foldl (pushCandidate pid) s).events = s.events ++ d
  | [], s => by simp
  | c :: cs, s => by
    obtain ⟨h1, h2, h3, d, h4⟩ := pushCandidate_fold_fields pid cs (pushCandidate pid s c)
    refine ⟨?_, ?_, ?_, ?_⟩
    · simpa [pushCandidate, emit] using h1
    · simpa [pushCandidate, emit] using h2
    · simpa [pushCandidate, emit] using h3
    · refine ⟨[Event.iceCandidate c pid] ++ d, ?_⟩
      simp only [List.foldl_cons, h4]
      simp [pushCandidate, emit]

theorem pushCandidate_fold_roomId (pid : String) (cs : List Candidate) (s : ManagerState) :
    (cs.foldl (pushCandidate pid) s).currentRoomId = s.currentRoomId :=
  (pushCandidate_fold_fields pid cs s).1

theorem pushCandidate_fold_connections (pid : String) (cs : List Candidate) (s : ManagerState) :
    (cs.foldl (pushCandidate pid) s).connections = s.connections :=
  (pushCandidate_fold_fields pid cs s).2.1

/-- Every `createRoom` attempt leaves `currentRoomId` set to the requested
room (success and failure alike — the assignment happens before any fallible
transport call and is never rolled back). -/
theorem createRoomAttempt_roomId (roomId : String) (o : CreateOutcome) (s : ManagerState) :
    (createRoomAttempt roomId o s).2.currentRoomId = some roomId := by
  cases o with
  | failEarly msg => simp [createRoomAttempt]
  | failLate msg => simp [createRoomAttempt]
  | ok sdp cands =>
    simp [createRoomAttempt, emit, pushCandidate_fold_roomId]

theorem createRoomAttempt_fails (roomId : String) (msg : String) (o : CreateOutcome)
    (ho : o = CreateOutcome.failEarly msg ∨ o = CreateOutcome.failLate msg) :
    ∀ s, (createRoomAttempt roomId o s).1
      = Except.error (ConnError.transportFailure msg) := by
  intro s
  rcases ho with rfl | rfl <;> simp [createRoomAttempt]

/-- The registry teardown loop of `leaveRoom`: disconnecting from every
registered peer (in registry order) empties the registry, closes every
entry's channel (when present) and connection, and emits one `peerLeave` per
entry. -/
theorem fold_disconnect : ∀ (conns : List (String × PeerConnection)) (s : ManagerState),
    s.connections = conns → (conns.map Prod.fst).Nodup →
    (conns.map Prod.fst).foldl disconnectFromPeer s = { s with
      connections := [],
      events := s.events ++ (conns.map Prod.fst).map Event.peerLeave,
      closedConnections := s.closedConnections ++ conns.map Prod.fst,
      closedChannels := s.closedChannels
        ++ (conns.filter (fun kv => kv.2.dataChannel.isSome)).map Prod.fst }
  | [], s, h, _ => by
    simp only [List.map_nil, List.foldl_nil, List.filter_nil, List.append_nil]
    rw [← h]
  | (k, e) :: rest, s, h, hnd => by
    have hget : mapGet s.connections k = some e := by
      rw [h]
      simp [mapGet]
    have hdel : mapDelete s.connections k = rest := by
      rw [h]
      simp [mapDelete]
    have hkrest : k ∉ rest.map Prod.fst := by
      simp only [List.map_cons, List.nodup_cons] at hnd
      exact hnd.1
    have hndrest : (rest.map Prod.fst).Nodup := by
      simp only [List.map_cons, List.nodup_cons] at hnd
      exact hnd.2
    have hstep : disconnectFromPeer s k = { s with
        connections := rest,
        events := s.events ++ [Event.peerLeave k],
        closedConnections := s.closedConnections ++ [k],
        closedChannels := if e.dataChannel.isSome
          then s.closedChannels ++ [k] else s.closedChannels } := by
      simp only [disconnectFromPeer, hget, hdel, emit]
    have ih := fold_disconnect rest (disconnectFromPeer s k) (by rw [hstep]) hndrest
    simp only [List.map_cons, List.foldl_cons]
    rw [ih, hstep]
    by_cases hc : e.dataChannel.isSome <;>
      simp [hc, List.filter_cons, List.map_map, Function.comp]

/-- `leaveRoom` on a state with a truthy room id, spelled out. -/
theorem leaveRoom_spec (s : ManagerState) (r : String) (hr : s.currentRoomId = some r)
    (hne : r ≠ "") (hnd : (s.connections.map Prod.fst).Nodup) :
    leaveRoom s = { s with
      connections := [],
      currentRoomId := none,
      events := s.events ++ (s.connections.map Prod.fst).map Event.peerLeave
        ++ [Event.roomLeft r],
      closedConnections := s.closedConnections ++ s.connections.map Prod.fst,
      closedChannels := s.closedChannels
        ++ (s.connections.filter (fun kv => kv.2.dataChannel.isSome)).map Prod.fst } := by
  have htruthy : truthyRoom s.currentRoomId = true := by
    rw [hr]
    simp [truthyRoom, hne]
  unfold leaveRoom
  rw [if_pos htruthy, fold_disconnect s.connections s rfl hnd]
  simp [emit, hr]

/-- `leaveRoom` with no active room is the identity. -/
theorem leaveRoom_noop (s : ManagerState) (h : s.currentRoomId = none) :
    leaveRoom s = s := by
  unfold leaveRoom
  rw [h]
  simp [truthyRoom]

theorem mapGet_mapSet_self {α : Type} :
    ∀ (l : List (String × α)) (k : String) (v : α), mapGet (mapSet l k v) k = some v
  | [], k, v => by simp [mapSet, mapGet]
  | (k0, w) :: rest, k, v => by
    by_cases h : k0 = k
    · subst h
      simp [mapSet, mapGet]
    · simp [mapSet, mapGet, h, mapGet_mapSet_self rest k v]

/-- The candidate-gathering fold appends exactly one `iceCandidate` event
per candidate. -/
theorem pushCandidate_fold_events_eq (pid : String) :
    ∀ (cs : List Candidate) (s : ManagerState),
      (cs.foldl (pushCandidate pid) s).events
        = s.events ++ cs.map (fun c => Event.iceCandidate c pid)
  | [], s => by simp
  | c :: cs, s => by
    have ih := pushCandidate_fold_events_eq pid cs (pushCandidate pid s c)
    simp only [List.foldl_cons, ih]
    simp [pushCandidate, emit]

theorem disconnectFromPeer_events_extend (s : ManagerState) (pid : String) :
    ∃ d, (disconnectFromPeer s pid).events = s.events ++ d := by
  unfold disconnectFromPeer
  cases mapGet s.connections pid with
  | none => exact ⟨[], by simp⟩
  | some peer => exact ⟨[Event.peerLeave pid], by simp [emit]⟩

theorem fold_disconnect_events_extend :
    ∀ (keys : List String) (s : ManagerState),
      ∃ d, (keys.foldl disconnectFromPeer s).events = s.events ++ d
  | [], s => ⟨[], by simp⟩
  | k :: keys, s => by
    obtain ⟨d1, h1⟩ := disconnectFromPeer_events_extend s k
    obtain ⟨d2, h2⟩ := fold_disconnect_events_extend keys (disconnectFromPeer s k)
    exact ⟨d1 ++ d2, by simp [h2, h1]⟩

theorem leaveRoom_events_extend (s : ManagerState) :
    ∃ d, (leaveRoom s).events = s.events ++ d := by
  unfold leaveRoom
  split
  · obtain ⟨d, hd⟩ := fold_disconnect_events_extend (s.connections.map Prod.fst) s
    exact ⟨d ++ [Event.roomLeft (s.currentRoomId.getD "")], by simp [emit, hd]⟩
  · exact ⟨[], by simp⟩

/-- Every `createRoom` attempt only appends events after the teardown of the
previous room. -/
theorem createRoomAttempt_events (roomId : String) (o : CreateOutcome) (s : ManagerState) :
    ∃ d, (createRoomAttempt roomId o s).2.events = (leaveRoom s).events ++ d := by
  cases o with
  | failEarly msg => exact ⟨[], by simp [createRoomAttempt]⟩
  | failLate msg => exact ⟨[], by simp [createRoomAttempt]⟩
  | ok sdp cands =>
    refine ⟨cands.map (fun c => Event.iceCandidate c "host") ++ [Event.roomJoined roomId], ?_⟩
    simp [createRoomAttempt, emit, pushCandidate_fold_events_eq]

/-- Every `createRoom` attempt only appends to the event log. -/
theorem createRoomAttempt_events_extend (roomId : String) (o : CreateOutcome)
    (s : ManagerState) :
    ∃ d, (createRoomAttempt roomId o s).2.events = s.events ++ d := by
  obtain ⟨d1, h1⟩ := createRoomAttempt_events roomId o s
  obtain ⟨d2, h2⟩ := leaveRoom_events_extend s
  exact ⟨d2 ++ d1, by simp [h1, h2]⟩

/-- If every attempt only appends to the event log, the executor's final
event log extends the first attempt's. -/
theorem retry_events_extend (fn : Nat → ManagerState → Except ConnError Unit × ManagerState)
    (hmono : ∀ (j : Nat) (s' : ManagerState), ∃ d, (fn j s').2.events = s'.events ++ d) :
    ∀ (i rem : Nat) (s : ManagerState), 1 ≤ rem →
      ∃ d, (retryAux fn i rem s).state.events = (fn i s).2.events ++ d := by
  intro i rem
  induction rem generalizing i with
  | zero => omega
  | succ r ih =>
    intro s _
    rcases hr : fn i s with ⟨res, s1⟩
    cases res with
    | ok u =>
      refine ⟨[], ?_⟩
      simp [retryAux, hr]
    | error e =>
      by_cases h0 : r = 0
      · subst h0
        refine ⟨[], ?_⟩
        simp [retryAux, hr]
      · obtain ⟨d, hd⟩ := ih (i + 1) s1 (by omega)
        obtain ⟨d2, hd2⟩ := hmono (i + 1) s1
        refine ⟨d2 ++ d, ?_⟩
        simp only [retryAux, hr, if_neg h0]
        rw [hd, hd2]
        simp

/-! ### Claims C3 and C4: messaging errors -/

/-- A `sendMessage` attempt that fails without mutating the state makes the
whole call fail with the same error after the executor's 3 attempts. -/
theorem sendMessage_of_attempt_fail (sendOk : String → Bool) (m : PeerMessage)
    (target : Option String) (s : ManagerState) (e : ConnError)
    (h : sendMessageAttempt sendOk m target s = (Except.error e, s)) :
    sendMessage sendOk m target s = ⟨Except.error e, s, 3, [1000, 2000]⟩ :=
  retry_const_fail _ s e (fun _ => h)

theorem sendMessageAttempt_notInRoom (sendOk : String → Bool) (m : PeerMessage)
    (target : Option String) (s : ManagerState) (h : truthyRoom s.currentRoomId = false) :
    sendMessageAttempt sendOk m target s = (Except.error ConnError.notInRoom, s) := by
  simp [sendMessageAttempt, h]

theorem sendMessageAttempt_targeted (sendOk : String → Bool) (m : PeerMessage)
    (pid : String) (s : ManagerState) (h : truthyRoom s.currentRoomId = true)
    (hp : pid ≠ "") :
    sendMessageAttempt sendOk m (some pid) s = sendMessageToPeer sendOk m pid s := by
  simp [sendMessageAttempt, h, truthyTarget, hp]

/-- C3 counterexample: the claim's `NotInRoom`/`UnknownPeer` split fails on
the JavaScript truthiness of the source's guards.  (1) After `joinRoom("")`
a room is active (`getCurrentRoom() ≠ null`), yet a send targeted at the
unknown peer `"x"` fails with `NotInRoom`, not `UnknownPeer`.  (2) With room
`"r1"` active and an empty registry, a send targeted at the peer id `""`
(no entry) resolves successfully (it is treated as a broadcast to nobody)
instead of failing with `UnknownPeer`. -/
theorem C3_counterexample :
    (getCurrentRoom (joinRoom "" initState) ≠ none ∧
      mapGet (joinRoom "" initState).connections "x" = none ∧
      (sendMessage (fun _ => true) ⟨"chat", "hi"⟩ (some "x") (joinRoom "" initState)).result
        = Except.error ConnError.notInRoom) ∧
    (getCurrentRoom (joinRoom "r1" initState) = some "r1" ∧
      mapGet (joinRoom "r1" initState).connections "" = none ∧
      (sendMessage (fun _ => true) ⟨"chat", "hi"⟩ (some "") (joinRoom "r1" initState)).result
        = Except.ok ()) := by
  decide

/-- C3 (amended): `sendMessage` fails with `NotInRoom` whenever
`currentRoomId` is unset *or the empty string* (for every message and target);
when targeted at a specific **non-empty** peer id with a room whose id is
truthy, it fails with `UnknownPeer` if the registry has no entry for that id,
`ChannelNotEstablished` if the entry has no channel, and `ChannelNotOpen` if
the channel's `readyState` is not `'open'` (an empty target id is treated as
absent, i.e. broadcast). -/
theorem C3_sendMessage_errors (sendOk : String → Bool) (m : PeerMessage)
    (s : ManagerState) :
    (truthyRoom s.currentRoomId = false → ∀ target,
      (sendMessage sendOk m target s).result = Except.error ConnError.notInRoom) ∧
    (∀ pid, truthyRoom s.currentRoomId = true → pid ≠ "" →
      (mapGet s.connections pid = none →
        (sendMessage sendOk m (some pid) s).result
          = Except.error (ConnError.unknownPeer pid)) ∧
      (∀ c, mapGet s.connections pid = some c → c.dataChannel = none →
        (sendMessage sendOk m (some pid) s).result
          = Except.error (ConnError.channelNotEstablished pid)) ∧
      (∀ c ch, mapGet s.connections pid = some c → c.dataChannel = some ch →
        ch.readyState ≠ "open" →
        (sendMessage sendOk m (some pid) s).result
          = Except.error (ConnError.channelNotOpen pid))) := by
  constructor
  · intro h target
    rw [sendMessage_of_attempt_fail sendOk m target s ConnError.notInRoom
      (sendMessageAttempt_notInRoom sendOk m target s h)]
  · intro pid h hp
    refine ⟨?_, ?_, ?_⟩
    · intro hget
      have ha : sendMessageAttempt sendOk m (some pid) s
          = (Except.error (ConnError.unknownPeer pid), s) := by
        rw [sendMessageAttempt_targeted sendOk m pid s h hp]
        simp [sendMessageToPeer, hget]
      rw [sendMessage_of_attempt_fail sendOk m (some pid) s _ ha]
    · intro c hget hch
      have ha : sendMessageAttempt sendOk m (some pid) s
          = (Except.error (ConnError.channelNotEstablished pid), s) := by
        rw [sendMessageAttempt_targeted sendOk m pid s h hp]
        simp [sendMessageToPeer, hget, hch]
      rw [sendMessage_of_attempt_fail sendOk m (some pid) s _ ha]
    · intro c ch hget hch hrs
      have ha : sendMessageAttempt sendOk m (some pid) s
          = (Except.error (ConnError.channelNotOpen pid), s) := by
        rw [sendMessageAttempt_targeted sendOk m pid s h hp]
        simp [sendMessageToPeer, hget, hch, hrs]
      rw [sendMessage_of_attempt_fail sendOk m (some pid) s _ ha]

/-- C3 witness: the four amended error conditions at concrete states
(no room; unknown peer; entry without channel; channel not open), by
applying `C3_sendMessage_errors`. -/
theorem C3_sendMessage_errors_witness :
    (sendMessage (fun _ => true) ⟨"a", "b"⟩ (some "p") initState).result
        = Except.error ConnError.notInRoom ∧
    (sendMessage (fun _ => true) ⟨"a", "b"⟩ (some "zz") c3WitState).result
        = Except.error (ConnError.unknownPeer "zz") ∧
    (sendMessage (fun _ => true) ⟨"a", "b"⟩ (some "p") c3WitState).result
        = Except.error (ConnError.channelNotEstablished "p") ∧
    (sendMessage (fun _ => true) ⟨"a", "b"⟩ (some "q") c3WitState).result
        = Except.error (ConnError.channelNotOpen "q") := by
  refine ⟨?_, ?_, ?_, ?_⟩
  · exact (C3_sendMessage_errors (fun _ => true) ⟨"a", "b"⟩ initState).1 (by decide) (some "p")
  · exact ((C3_sendMessage_errors (fun _ => true) ⟨"a", "b"⟩ c3WitState).2 "zz"
      (by decide) (by decide)).1 (by decide)
  · exact ((C3_sendMessage_errors (fun _ => true) ⟨"a", "b"⟩ c3WitState).2 "p"
      (by decide) (by decide)).2.1 ⟨{}, none, "connecting", "new"⟩ (by decide) rfl
  · exact ((C3_sendMessage_errors (fun _ => true) ⟨"a", "b"⟩ c3WitState).2 "q"
      (by decide) (by decide)).2.2 ⟨{}, some ⟨"connecting"⟩, "connecting", "new"⟩
      ⟨"connecting"⟩ (by decide) rfl (by decide)

/-- C4 counterexample: a `sendMessage` call with no active room returns
`NotInRoom` only after **3** invocations of the wrapped operation (the
source wraps `sendMessage` in `retryConnection`), not after exactly one as
the claim states. -/
theorem C4_counterexample :
    (sendMessage (fun _ => true) ⟨"chat", "hi"⟩ none initState).result
        = Except.error ConnError.notInRoom ∧
    (sendMessage (fun _ => true) ⟨"chat", "hi"⟩ none initState).attempts = 3 := by
  decide

/-- C4 (amended): messaging failures are retried like any other failure:
when the underlying attempt fails with one of the precondition errors
(`NotInRoom`, `UnknownPeer`, `ChannelNotEstablished`, `ChannelNotOpen` —
all of which leave the state unchanged), the same error is returned to the
caller unmodified only after exactly 3 invocations of the operation, with
the §4.3 delays (1000 ms and 2000 ms) in between. -/
theorem C4_messaging_failures_retried (sendOk : String → Bool) (m : PeerMessage)
    (target : Option String) (s : ManagerState) (e : ConnError)
    (h : sendMessageAttempt sendOk m target s = (Except.error e, s)) :
    (sendMessage sendOk m target s).result = Except.error e ∧
    (sendMessage sendOk m target s).attempts = 3 ∧
    (sendMessage sendOk m target s).delays = [1000, 2000] ∧
    (sendMessage sendOk m target s).state = s := by
  rw [sendMessage_of_attempt_fail sendOk m target s e h]
  exact ⟨rfl, rfl, rfl, rfl⟩

/-- C4 witness: the `NotInRoom` failure on the initial state is retried
3 times, by applying `C4_messaging_failures_retried`. -/
theorem C4_messaging_failures_retried_witness :
    (sendMessage (fun _ => true) ⟨"a", "b"⟩ none initState).result
        = Except.error ConnError.notInRoom ∧
    (sendMessage (fun _ => true) ⟨"a", "b"⟩ none initState).attempts = 3 ∧
    (sendMessage (fun _ => true) ⟨"a", "b"⟩ none initState).delays = [1000, 2000] ∧
    (sendMessage (fun _ => true) ⟨"a", "b"⟩ none initState).state = initState :=
  C4_messaging_failures_retried (fun _ => true) ⟨"a", "b"⟩ none initState
    ConnError.notInRoom (by decide)

/-! ### Claims C5 and C6: room lifecycle on failure, implicit teardown -/

/-- C5 counterexample: with a transport that fails on every attempt,
`createRoom("r1")` surfaces the **last** attempt's error (`"c"`), but the
manager is *not* left in `Idle`: `getCurrentRoom()` returns `"r1"`, not
`null` (the source sets `this.currentRoomId = roomId` before any fallible
transport call and never rolls it back). -/
theorem C5_counterexample :
    (createRoom alwaysFailScript "r1" initState).result
        = Except.error (ConnError.transportFailure "c") ∧
    getCurrentRoom (createRoom alwaysFailScript "r1" initState).state = some "r1" ∧
    getCurrentRoom (createRoom alwaysFailScript "r1" initState).state ≠ none := by
  decide

/-- C5 (amended): if `createRoom` ultimately fails (all 3 attempts
exhausted), the *last* attempt's error is surfaced to the caller unmodified,
but the manager is **not** left in `Idle`: `getCurrentRoom()` returns the
requested room id (and, on a late failure, a partially-initialized `host`
entry may remain registered). -/
theorem C5_createRoom_failure (script : Nat → CreateOutcome) (msgs : Nat → String)
    (roomId : String) (s : ManagerState)
    (hfail : ∀ i, script i = CreateOutcome.failEarly (msgs i)
      ∨ script i = CreateOutcome.failLate (msgs i)) :
    (createRoom script roomId s).result
        = Except.error (ConnError.transportFailure (msgs 2)) ∧
    getCurrentRoom (createRoom script roomId s).state = some roomId := by
  constructor
  · have h := retry_all_fail (fun i => createRoomAttempt roomId (script i))
      (fun j => ConnError.transportFailure (msgs j))
      (fun j s' => createRoomAttempt_fails roomId (msgs j) (script j) (hfail j) s')
      0 3 s (by omega)
    simpa using h
  · exact retry_state_post (fun i => createRoomAttempt roomId (script i))
      (fun st => st.currentRoomId = some roomId)
      (fun j s' => createRoomAttempt_roomId roomId (script j) s') 0 3 s (by omega)

/-- C5 witness: `C5_createRoom_failure` applied to the concrete always-fail
transport. -/
theorem C5_createRoom_failure_witness :
    (createRoom alwaysFailScript "r2" initState).result
        = Except.error (ConnError.transportFailure "c") ∧
    getCurrentRoom (createRoom alwaysFailScript "r2" initState).state = some "r2" :=
  C5_createRoom_failure alwaysFailScript
    (fun i => if i = 0 then "a" else if i = 1 then "b" else "c") "r2" initState
    (fun i => by
      rcases i with _ | _ | i <;> simp [alwaysFailScript])

/-- C6 counterexample: a manager that joined the room `""` has an active
room (`getCurrentRoom() ≠ null`), but `joinRoom("r2")` does **not** tear it
down first: no `roomLeft` is emitted for it (the teardown guard
`if (this.currentRoomId)` treats the empty-string room id as falsy). -/
theorem C6_counterexample :
    getCurrentRoom (joinRoom "" initState) ≠ none ∧
    Event.roomJoined "r2" ∈ (joinRoom "r2" (joinRoom "" initState)).events ∧
    Event.roomLeft "" ∉ (joinRoom "r2" (joinRoom "" initState)).events := by
  decide

/-- C6 (amended): the manager holds at most one room at a time, and calling
`createRoom` or `joinRoom` while a room with a **non-empty** id is active
does not raise an error but first tears the previous room down — all peer
entries purged with a `peerLeave` each and `roomLeft` emitted — before
establishing the new room (a room whose id is the empty string is treated by
the teardown guard as no room and is not torn down; see the
counterexample). -/
theorem C6_implicit_teardown (s : ManagerState) (r newRoom : String)
    (hr : s.currentRoomId = some r) (hne : r ≠ "")
    (hnd : (s.connections.map Prod.fst).Nodup) :
    (getCurrentRoom (joinRoom newRoom s) = some newRoom ∧
      (joinRoom newRoom s).connections = [] ∧
      (joinRoom newRoom s).events = s.events
        ++ (s.connections.map Prod.fst).map Event.peerLeave
        ++ [Event.roomLeft r] ++ [Event.roomJoined newRoom]) ∧
    (∀ script, getCurrentRoom (createRoom script newRoom s).state = some newRoom ∧
      ∃ post, (createRoom script newRoom s).state.events = s.events
        ++ (s.connections.map Prod.fst).map Event.peerLeave
        ++ [Event.roomLeft r] ++ post) := by
  have hls := leaveRoom_spec s r hr hne hnd
  constructor
  · refine ⟨rfl, ?_, ?_⟩
    · simp [joinRoom, emit, hls]
    · simp [joinRoom, emit, hls]
  · intro script
    constructor
    · exact retry_state_post (fun i => createRoomAttempt newRoom (script i))
        (fun st => st.currentRoomId = some newRoom)
        (fun j s' => createRoomAttempt_roomId newRoom (script j) s') 0 3 s (by omega)
    · obtain ⟨d, hd⟩ := retry_events_extend (fun i => createRoomAttempt newRoom (script i))
        (fun j s' => createRoomAttempt_events_extend newRoom (script j) s') 0 3 s (by omega)
      obtain ⟨d0, hd0⟩ := createRoomAttempt_events newRoom (script 0) s
      refine ⟨d0 ++ d, ?_⟩
      show (retryAux (fun i => createRoomAttempt newRoom (script i)) 0 3 s).state.events = _
      rw [hd, hd0, hls]
      simp

/-- C6 witness: `C6_implicit_teardown` applied to the state that joined
room `"r1"` (teardown of `"r1"` observed before `"r2"` is established). -/
theorem C6_implicit_teardown_witness :
    getCurrentRoom (joinRoom "r2" (joinRoom "r1" initState)) = some "r2" ∧
    (joinRoom "r2" (joinRoom "r1" initState)).connections = [] ∧
    (joinRoom "r2" (joinRoom "r1" initState)).events = (joinRoom "r1" initState).events
      ++ ((joinRoom "r1" initState).connections.map Prod.fst).map Event.peerLeave
      ++ [Event.roomLeft "r1"] ++ [Event.roomJoined "r2"] := by
  have h := C6_implicit_teardown (joinRoom "r1" initState) "r1" "r2"
    (by decide) (by decide) (by decide)
  exact h.1

/-! ### Claim C7: the decode path of `connectWithInfo` -/

/-- C7: `connectWithInfo` (the decode path) fails with an
`InvalidHandshakePayload`-class error for every input string that is not
validly base64-encoded, is not valid JSON, or whose decoded value lacks any
of the fields `type`, `sdp`, `roomId`. -/
theorem C7_connectWithInfo_invalid (g : GuestOutcome) (encoded : List Nat)
    (s : ManagerState)
    (h : atob encoded = none ∨
      (∃ t, atob encoded = some t ∧ jsonParse t = none) ∨
      (∃ t info, atob encoded = some t ∧ jsonParse t = some info ∧
        (jsGet info keyType = none ∨ jsGet info keySdp = none
          ∨ jsGet info keyRoomId = none))) :
    ∃ e, (connectWithInfo g encoded s).result = Except.error e ∧ InvalidHandshake e := by
  have hatt : ∃ e, connectWithInfoAttempt g encoded s = (Except.error e, s)
      ∧ InvalidHandshake e := by
    rcases h with h | ⟨t, ht, hp⟩ | ⟨t, info, ht, hp, hmiss⟩
    · exact ⟨ConnError.atobFailed, by simp [connectWithInfoAttempt, h], Or.inl rfl⟩
    · exact ⟨ConnError.jsonParseFailed, by simp [connectWithInfoAttempt, ht, hp],
        Or.inr (Or.inl rfl)⟩
    · refine ⟨ConnError.invalidConnectionInfo, ?_, Or.inr (Or.inr rfl)⟩
      have hfalsy : ¬ (truthyJson (jsGet info keySdp) = true
          ∧ truthyJson (jsGet info keyType) = true
          ∧ truthyJson (jsGet info keyRoomId) = true) := by
        rcases hmiss with hm | hm | hm <;> simp [hm, truthyJson]
      simp [connectWithInfoAttempt, ht, hp, hfalsy]
  obtain ⟨e, he, hinv⟩ := hatt
  refine ⟨e, ?_, hinv⟩
  have := retry_const_fail (fun _ => connectWithInfoAttempt g encoded) s e (fun _ => he)
  unfold connectWithInfo
  rw [this]

/-- C7 witness: the single character `!` is not valid base64, an encoding of
`nonsense` is not valid JSON, and an encoding of `{}` lacks the required
fields; each makes `connectWithInfo` fail with an
`InvalidHandshakePayload`-class error, by applying
`C7_connectWithInfo_invalid`. -/
theorem C7_connectWithInfo_invalid_witness :
    (∃ e, (connectWithInfo {} [33] initState).result = Except.error e
      ∧ InvalidHandshake e) ∧
    (∃ e, (connectWithInfo {} (btoaChunks [110, 111]) initState).result = Except.error e
      ∧ InvalidHandshake e) ∧
    (∃ e, (connectWithInfo {} (btoaChunks [123, 125]) initState).result = Except.error e
      ∧ InvalidHandshake e) := by
  refine ⟨?_, ?_, ?_⟩
  · exact C7_connectWithInfo_invalid {} [33] initState (Or.inl (by decide))
  · exact C7_connectWithInfo_invalid {} (btoaChunks [110, 111]) initState
      (Or.inr (Or.inl ⟨[110, 111], by decide, rfl⟩))
  · exact C7_connectWithInfo_invalid {} (btoaChunks [123, 125]) initState
      (Or.inr (Or.inr ⟨[123, 125], Json.obj [], by decide, rfl, Or.inl rfl⟩))

/-! ### Claim C8: room lifecycle -/

/-- C8: after a successful `createRoom("r1")`, `getCurrentRoom()` returns
`"r1"`; after `leaveRoom()` on a state with a (truthy) room,
`getCurrentRoom()` returns `null`, the peer registry is empty
(`getPeerIds() = []`), every entry's channel (when present) and transport
handle have been closed and a `peerLeave` notification was emitted per
entry, plus `roomLeft`; and `leaveRoom()` with no active room is an
idempotent no-op. -/
theorem C8_room_lifecycle :
    (∀ (script : Nat → CreateOutcome) (s : ManagerState),
      (createRoom script "r1" s).result = Except.ok () →
      getCurrentRoom (createRoom script "r1" s).state = some "r1") ∧
    (∀ (s : ManagerState) (r : String), getCurrentRoom s = some r → r ≠ "" →
      (s.connections.map Prod.fst).Nodup →
      getCurrentRoom (leaveRoom s) = none ∧
      getPeerIds (leaveRoom s) = [] ∧
      Event.roomLeft r ∈ (leaveRoom s).events ∧
      (∀ pid e, (pid, e) ∈ s.connections →
        Event.peerLeave pid ∈ (leaveRoom s).events ∧
        pid ∈ (leaveRoom s).closedConnections ∧
        (e.dataChannel.isSome = true → pid ∈ (leaveRoom s).closedChannels))) ∧
    (∀ s : ManagerState, getCurrentRoom s = none → leaveRoom s = s) := by
  refine ⟨?_, ?_, ?_⟩
  · intro script s _
    exact retry_state_post (fun i => createRoomAttempt "r1" (script i))
      (fun st => st.currentRoomId = some "r1")
      (fun j s' => createRoomAttempt_roomId "r1" (script j) s') 0 3 s (by omega)
  · intro s r hr hne hnd
    have hls := leaveRoom_spec s r hr hne hnd
    refine ⟨?_, ?_, ?_, ?_⟩
    · simp [getCurrentRoom, hls]
    · simp [getPeerIds, hls]
    · simp [hls]
    · intro pid e hmem
      have hfst : pid ∈ s.connections.map Prod.fst :=
        List.mem_map.mpr ⟨(pid, e), hmem, rfl⟩
      refine ⟨?_, ?_, ?_⟩
      · simp only [hls, List.mem_append]
        exact Or.inl (Or.inr (List.mem_map.mpr ⟨pid, hfst, rfl⟩))
      · simp only [hls, List.mem_append]
        exact Or.inr hfst
      · intro hch
        simp only [hls, List.mem_append]
        exact Or.inr
          (List.mem_map.mpr ⟨(pid, e), List.mem_filter.mpr ⟨hmem, by simp [hch]⟩, rfl⟩)
  · intro s h
    exact leaveRoom_noop s h

/-- C8 witness: concrete lifecycle — a successful `createRoom("r1")` reports
room `"r1"`; tearing the resulting state down empties it with the expected
notifications; `leaveRoom` on the initial state is a no-op; by applying
`C8_room_lifecycle`. -/
theorem C8_room_lifecycle_witness :
    getCurrentRoom (createRoom (fun _ => CreateOutcome.ok "v=0" []) "r1" initState).state
        = some "r1" ∧
    getCurrentRoom (leaveRoom c3WitState) = none ∧
    getPeerIds (leaveRoom c3WitState) = [] ∧
    Event.roomLeft "r1" ∈ (leaveRoom c3WitState).events ∧
    leaveRoom initState = initState := by
  have h := C8_room_lifecycle
  refine ⟨?_, ?_, ?_, ?_, ?_⟩
  · exact h.1 (fun _ => CreateOutcome.ok "v=0" []) initState (by decide)
  · exact (h.2.1 c3WitState "r1" (by decide) (by decide) (by decide)).1
  · exact (h.2.1 c3WitState "r1" (by decide) (by decide) (by decide)).2.1
  · exact (h.2.1 c3WitState "r1" (by decide) (by decide) (by decide)).2.2.1
  · exact h.2.2 initState (by decide)

/-! ### Claim C9: role-gating of `handleConnectionInfo` -/

/-- C9: `handleConnectionInfo` is role-gated — an `offer` is processed only
while Host (registering an entry for the given peer id and emitting the
answer via `connectionInfo`, room unchanged), an `answer` only while Guest
(updating the `host` entry's remote description, events and room unchanged),
the answer path silently no-ops when the `host` entry is missing, and every
non-matching role/type combination leaves the state unchanged. -/
theorem C9_role_gating (a : String) (info : SessionDesc) (pid : String)
    (s : ManagerState) :
    (info.type = "offer" → s.isHost = true →
      (handleConnectionInfo a info pid s).connections =
        mapSet s.connections pid
          { connection :=
              { localDescription := some ⟨"answer", a⟩, remoteDescription := some info },
            dataChannel := none, state := "connecting", iceConnectionState := "new" } ∧
      (handleConnectionInfo a info pid s).events =
        s.events ++ [Event.connectionInfo ⟨"answer", a⟩] ∧
      (handleConnectionInfo a info pid s).currentRoomId = s.currentRoomId) ∧
    (info.type = "offer" → s.isHost = false → handleConnectionInfo a info pid s = s) ∧
    (info.type = "answer" → s.isHost = true → handleConnectionInfo a info pid s = s) ∧
    (info.type = "answer" → s.isHost = false → mapGet s.connections "host" = none →
      handleConnectionInfo a info pid s = s) ∧
    (info.type = "answer" → s.isHost = false → ∀ peer,
      mapGet s.connections "host" = some peer →
      (handleConnectionInfo a info pid s).connections =
        mapSet s.connections "host"
          { peer with
            connection := { peer.connection with remoteDescription := some info } } ∧
      (handleConnectionInfo a info pid s).events = s.events ∧
      (handleConnectionInfo a info pid s).currentRoomId = s.currentRoomId) ∧
    (info.type ≠ "offer" → info.type ≠ "answer" →
      handleConnectionInfo a info pid s = s) := by
  refine ⟨?_, ?_, ?_, ?_, ?_, ?_⟩
  · intro h1 h2
    refine ⟨?_, ?_, ?_⟩ <;> simp [handleConnectionInfo, h1, h2, emit]
  · intro h1 h2
    simp [handleConnectionInfo, h1, h2]
  · intro h1 h2
    simp [handleConnectionInfo, h1, h2]
  · intro h1 h2 h3
    simp [handleConnectionInfo, h1, h2, h3]
  · intro h1 h2 peer hpeer
    refine ⟨?_, ?_, ?_⟩ <;> simp [handleConnectionInfo, h1, h2, hpeer]
  · intro h1 h2
    simp [handleConnectionInfo, h1, h2]

/-- C9 witness: on a Host, an `offer` for `p1` emits the answer; on a Guest
(the initial state), the same `offer` is ignored, and a payload of an
unknown type is ignored; by applying `C9_role_gating`. -/
theorem C9_role_gating_witness :
    (handleConnectionInfo "ans" ⟨"offer", "sdpO"⟩ "p1"
        { initState with isHost := true }).events
      = [Event.connectionInfo ⟨"answer", "ans"⟩] ∧
    handleConnectionInfo "ans" ⟨"offer", "sdpO"⟩ "p1" initState = initState ∧
    handleConnectionInfo "ans" ⟨"ping", "x"⟩ "p1" initState = initState := by
  have h1 := (C9_role_gating "ans" ⟨"offer", "sdpO"⟩ "p1"
    { initState with isHost := true }).1 rfl rfl
  have h2 := (C9_role_gating "ans" ⟨"offer", "sdpO"⟩ "p1" initState).2.1 rfl rfl
  have h3 := (C9_role_gating "ans" ⟨"ping", "x"⟩ "p1" initState).2.2.2.2.2
    (by decide) (by decide)
  exact ⟨by rw [h1.2.1]; rfl, h2, h3⟩

/-! ### Claim C10: `isConnected` -/

/-- C10: `isConnected(peerId)` (total in the model, so it never throws)
returns `false` when the registry has no entry for `peerId`, returns `true`
exactly when the entry's data channel is open or the connection's
`connectionState` is `connected`, and defaults `peerId` to `"host"`. -/
theorem C10_isConnected (s : ManagerState) (pid : String) :
    (mapGet s.connections pid = none → isConnected s pid = false) ∧
    (isConnected s pid = true ↔ ∃ c, mapGet s.connections pid = some c ∧
      ((∃ ch, c.dataChannel = some ch ∧ ch.readyState = "open")
        ∨ c.connection.connectionState = "connected")) ∧
    isConnected s = isConnected s "host" := by
  refine ⟨?_, ?_, rfl⟩
  · intro h
    simp [isConnected, h]
  · cases hm : mapGet s.connections pid with
    | none => simp [isConnected, hm]
    | some conn =>
      cases hd : conn.dataChannel with
      | none => simp [isConnected, hm, hd]
      | some ch => simp [isConnected, hm, hd]

/-- C10 witness: on the initial state `isConnected("host")` is `false`
(empty registry), and on a state with a connecting channel for `q` the
characterization holds concretely; by applying `C10_isConnected`. -/
theorem C10_isConnected_witness :
    isConnected initState "host" = false ∧
    (isConnected c3WitState "q" = true ↔
      ∃ c, mapGet c3WitState.connections "q" = some c ∧
        ((∃ ch, c.dataChannel = some ch ∧ ch.readyState = "open")
          ∨ c.connection.connectionState = "connected")) :=
  ⟨(C10_isConnected initState "host").1 rfl, (C10_isConnected c3WitState "q").2.1⟩

end PeerConnect
